import Mathlib

/-!
Verification development for the PiicoDev SSD1306 display driver
(PiicoDev_SSD1306.py).  The driver keeps a bit-packed 128x64 pixel
buffer (8 pages of 128 bytes, one byte = 8 vertically stacked pixels)
and talks to the display over an i2c bus.  The shallow embedding below
translates the microbit/Linux code path of the source file: the custom
Framebuf.FrameBuffer class (fill, pixel, set_pos, line, rect, text,
get_char_cols) together with the PiicoDev_SSD1306 class (init_display,
poweroff, poweron, set_contrast, invert, rotate, show, write_cmd,
write_data, circ, arc, load_pbm, Graph2D, update).

Python integers are arbitrary-precision and signed, so they are
modelled by Int; byte values (always in 0..255 here) by Nat.  The i2c
transport is modelled by an oracle list of transaction outcomes stored
in the state (empty list = every transaction succeeds); each attempted
transaction consumes one outcome.  Successful transactions are recorded
in a trace of bus events; a failed transaction reaches no device, so it
records nothing.  Float arithmetic of the source (Graph2D slopes, the
Bresenham error term dx/2) is modelled by exact rationals, and the
Python built-in round (ties round to the even neighbour) by pyRound.
-/

/-- Python bitwise AND on arbitrary-precision signed integers
(twos-complement on an infinite bit string), written so that every
case kernel-reduces: for a nonnegative left operand and negative right
operand, a AND (NOT b) over the bits of a equals a - (a AND b). -/
def pyAnd : ℤ → ℤ → ℤ
  | .ofNat a, .ofNat b => .ofNat (a &&& b)
  | .ofNat a, .negSucc b => .ofNat (a - (a &&& b))
  | .negSucc a, .ofNat b => .ofNat (b - (b &&& a))
  | .negSucc a, .negSucc b => .negSucc (a ||| b)

/-- Python bitwise NOT on integers: ~x = -x-1. -/
def pyNot (x : ℤ) : ℤ := -x - 1

/-- One successful i2c write transaction: the register address it was
addressed to (0x80 for commands, 0x40 for display data) and the bytes
transmitted. -/
structure BusEvent where
  reg : ℕ
  payload : List ℕ
deriving DecidableEq

/-- Python exceptions that the modelled code can raise. -/
inductive PyErr where
  | typeError
  | valueError
  | keyError
  | indexError
deriving DecidableEq

/-- State of one PiicoDev_SSD1306 object together with the bus.
buffer is the 1024-byte pixel buffer (bytearray(self.pages * WIDTH)),
char_cols the lazily loaded glyph dictionary keyed by character,
commsErr the comms_err flag, trace the successful bus transactions so
far, outcomes the oracle of pending transaction outcomes (true =
success; exhausted list = success). -/
structure DState where
  buffer : List ℕ
  char_cols : List (Char × List ℕ)
  commsErr : Bool
  trace : List BusEvent
  outcomes : List Bool
deriving DecidableEq

/-- A Python value passed to write_cmd: in show() the tuple iterated
over holds six ints and the bytearray buffer. -/
inductive PyVal where
  | int (n : ℤ)
  | bytes (bs : List ℕ)
deriving DecidableEq

/-- Python bytes([cmd]): succeeds only when cmd is an int in 0..255
(ValueError outside that range, TypeError when cmd is a bytearray). -/
def bytesOfList : PyVal → Except PyErr (List ℕ)
  | .int n => if 0 ≤ n ∧ n < 256 then .ok [n.toNat] else .error .valueError
  | .bytes _ => .error .typeError

/-- Consume the next transaction outcome from the oracle (an exhausted
oracle means the transaction succeeds). -/
def takeOutcome (s : DState) : Bool × DState :=
  match s.outcomes with
  | [] => (true, s)
  | b :: rest => (b, { s with outcomes := rest })

/-- write_cmd(cmd): try bytes([cmd]) and i2c.writeto_mem(addr, 0x80, .);
on success comms_err := False, on any exception (bad value or failed
transaction) the bare except prints and sets comms_err := True. -/
def write_cmd (cmd : PyVal) (s : DState) : DState :=
  match bytesOfList cmd with
  | .error _ => { s with commsErr := true }
  | .ok payload =>
    match takeOutcome s with
    | (true, s1) => { s1 with trace := s1.trace ++ [⟨0x80, payload⟩], commsErr := false }
    | (false, s1) => { s1 with commsErr := true }

/-- write_data(buf): i2c.writeto_mem(addr, 0x40, buf) with the same
try/except discipline as write_cmd (write_list[0] is the constant byte
0x40). -/
def write_data (buf : List ℕ) (s : DState) : DState :=
  match takeOutcome s with
  | (true, s1) => { s1 with trace := s1.trace ++ [⟨0x40, buf⟩], commsErr := false }
  | (false, s1) => { s1 with commsErr := true }

/-- set_pos(col, page): three cursor-positioning command writes
(page number, lower column bits, upper column bits). -/
def set_pos (col page : ℕ) (s : DState) : DState :=
  let s1 := write_cmd (.int (0xb0 ||| page : ℕ)) s
  let c1 := (col * 2) &&& 0x0F
  let c2 := col >>> 3
  let s2 := write_cmd (.int (0x00 ||| c1 : ℕ)) s1
  write_cmd (.int (0x10 ||| c2 : ℕ)) s2

/-- fill(c): every buffer byte becomes 0x00 when c = 0, else 0xFF. -/
def fill (c : ℕ) (s : DState) : DState :=
  if c = 0 then { s with buffer := s.buffer.map (fun _ => 0x00) }
  else { s with buffer := s.buffer.map (fun _ => 0xFF) }

/-- pixel(x, y, c): wrap x with x & (WIDTH-1) and y with y & (HEIGHT-1),
split y into page and offset with divmod(y, 8), then set (c truthy) or
clear (c falsy) bit offset of buffer byte x + page*WIDTH via
pack_into(">B", ...), and finally issue the set_pos cursor commands.
The index x + page*128 is always below 1024, so the pack_into write is
in range whenever the buffer has its constructed length. -/
def pixel (x y : ℤ) (c : Bool) (s : DState) : DState :=
  let xw : ℕ := (pyAnd x 127).toNat
  let yw : ℕ := (pyAnd y 63).toNat
  let page : ℕ := yw / 8
  let offset : ℕ := yw % 8
  let i : ℕ := xw + page * 128
  let old : ℕ := s.buffer.getD i 0
  let b : ℕ :=
    if c then old ||| (1 <<< offset)
    else (pyAnd (old : ℤ) (pyNot ((1 <<< offset : ℕ) : ℤ))).toNat
  set_pos xw page { s with buffer := s.buffer.set i b }

/-- Body of the Bresenham while loop of line(): fuel counts the
remaining iterations (the loop runs while x1 <= x2 and x1 grows by one
each pass, so it runs exactly x2 - x1 + 1 times).  The error term err
starts as the float dx/2, modelled exactly by a rational. -/
def lineLoop (steep : Bool) (c : Bool) (dx dy ystep : ℤ) :
    ℕ → ℤ → ℤ → ℚ → DState → DState
  | 0, _, _, _, s => s
  | fuel+1, x1, y1, err, s =>
    let s1 := if steep then pixel y1 x1 c s else pixel x1 y1 c s
    let err1 := err - dy
    if err1 < 0 then lineLoop steep c dx dy ystep fuel (x1 + 1) (y1 + ystep) (err1 + dx) s1
    else lineLoop steep c dx dy ystep fuel (x1 + 1) y1 err1 s1

/-- line(x1, y1, x2, y2, c): integer Bresenham with the role swap for
steep lines and endpoint normalisation so that x1 <= x2. -/
def line (x1 y1 x2 y2 : ℤ) (c : Bool) (s : DState) : DState :=
  let steep := (y2 - y1).natAbs > (x2 - x1).natAbs
  let x1a := if steep then y1 else x1
  let y1a := if steep then x1 else y1
  let x2a := if steep then y2 else x2
  let y2a := if steep then x2 else y2
  let x1b := if x1a > x2a then x2a else x1a
  let x2b := if x1a > x2a then x1a else x2a
  let y1b := if x1a > x2a then y2a else y1a
  let y2b := if x1a > x2a then y1a else y2a
  let dx := x2b - x1b
  let dy := (y2b - y1b).natAbs
  let err : ℚ := (dx : ℚ) / 2
  let ystep : ℤ := if y1b < y2b then 1 else -1
  lineLoop steep c dx dy ystep ((x2b - x1b).toNat + 1) x1b y1b err s

/-- hline(x, y, l, c). -/
def hline (x y l : ℤ) (c : Bool) (s : DState) : DState :=
  line x y (x + l) y c s

/-- vline(x, y, h, c). -/
def vline (x y h : ℤ) (c : Bool) (s : DState) : DState :=
  line x y x (y + h) c s

/-- rect(x, y, w, h, c): four-sided outline. -/
def rect (x y w h : ℤ) (c : Bool) (s : DState) : DState :=
  let s1 := hline x y w c s
  let s2 := hline x (y + h) w c s1
  let s3 := vline x y h c s2
  vline (x + w) y h c s3

/-- The for i in range(y, y + h) loop of fill_rect, fueled by the
iteration count h (when positive). -/
def fillRectLoop (x w : ℤ) (c : Bool) : ℕ → ℤ → DState → DState
  | 0, _, s => s
  | n+1, i, s => fillRectLoop x w c n (i + 1) (hline x i w c s)

/-- fill_rect(x, y, w, h, c): one hline per row y..y+h-1. -/
def fill_rect (x y w h : ℤ) (c : Bool) (s : DState) : DState :=
  fillRectLoop x w c h.toNat y s

/-- get_char_cols(): when the dictionary is empty, try to read the font
file; a missing resource (FileNotFoundError) is caught, a warning is
printed, and the dictionary stays empty.  With the resource present the
dictionary maps chr(32)..chr(126) to its 8 column bytes (the standard
font file has the 95*8 bytes the comprehension reads, so the list
lookup is modelled with getD). -/
def get_char_cols (font : Option (List ℕ)) (cc : List (Char × List ℕ)) :
    List (Char × List ℕ) :=
  if cc = [] then
    match font with
    | none => cc
    | some fontBytes =>
      (List.range 95).map (fun k =>
        (Char.ofNat (32 + k),
         (List.range 8).map (fun col => fontBytes.getD ((32 + k - 32) * 8 + col) 0)))
  else cc

/-- One dictionary lookup self.char_cols[char]: a missing key raises
KeyError. -/
def lookupChar (cc : List (Char × List ℕ)) (ch : Char) : Except PyErr (List ℕ) :=
  match cc.lookup ch with
  | some v => .ok v
  | none => .error .keyError

/-- The first loop of text(): build text_columns by appending
self.char_cols[char] for each character, raising KeyError at the first
character missing from the dictionary. -/
def collectCols (cc : List (Char × List ℕ)) : List Char → Except PyErr (List (List ℕ))
  | [] => .ok []
  | ch :: rest => do
    let v ← lookupChar cc ch
    let vs ← collectCols cc rest
    pure (v :: vs)

/-- The inner for cy in range(8) loop of text().  Each column entry of
text_columns is a Python list of 8 ints, so the guard
x + cx < WIDTH and y + cy < HEIGHT and column & 1 << cy
raises TypeError (list & int) as soon as both coordinate guards pass;
when a coordinate guard fails the and short-circuits and nothing is
drawn for that cy. -/
def textColLoop (x y : ℤ) (cx : ℕ) : ℕ → ℕ → DState → Except PyErr DState
  | 0, _, s => .ok s
  | n+1, cy, s =>
    if x + (cx : ℤ) < 128 ∧ y + (cy : ℤ) < 64 then .error .typeError
    else textColLoop x y cx n (cy + 1) s

/-- The outer for cx, column in enumerate(text_columns) loop of
text(). -/
def textDrawLoop (x y : ℤ) : ℕ → List (List ℕ) → DState → Except PyErr DState
  | _, [], s => .ok s
  | cx, _column :: rest, s =>
    match textColLoop x y cx 8 0 s with
    | .error e => .error e
    | .ok s1 => textDrawLoop x y (cx + 1) rest s1

/-- text(text, x, y, c): load the glyph dictionary if needed, look every
character up (KeyError on a miss), then run the drawing loops. -/
def text (font : Option (List ℕ)) (str : List Char) (x y : ℤ) (_c : Bool)
    (s : DState) : Except PyErr DState :=
  let s0 := { s with char_cols := get_char_cols font s.char_cols }
  match collectCols s0.char_cols str with
  | .error e => .error e
  | .ok text_columns => textDrawLoop x y 0 text_columns s0

/-- init_display(): the fixed command sequence, written with the
constant values of the source (display off, addressing, layout, timing,
contrast, charge pump, display on). -/
def init_display (s : DState) : DState :=
  [0xAE, 0x20, 0x00, 0x40, 0xA1, 0xA8, 63, 0xC8, 0xD3, 0x00, 0xDA, 0x12,
   0xD5, 0x80, 0xD9, 0xF1, 0xDB, 0x30, 0x81, 0xFF, 0xA4, 0xA6, 0xAD, 0x30,
   0x8D, 0x14, 0xAF].foldl (fun s cmd => write_cmd (.int cmd) s) s

/-- poweroff(): _SET_DISP. -/
def poweroff (s : DState) : DState := write_cmd (.int 0xAE) s

/-- poweron(): _SET_DISP | 0x01. -/
def poweron (s : DState) : DState := write_cmd (.int 0xAF) s

/-- set_contrast(contrast). -/
def set_contrast (contrast : ℤ) (s : DState) : DState :=
  write_cmd (.int contrast) (write_cmd (.int 0x81) s)

/-- invert(invert): _SET_NORM_INV | (invert & 1). -/
def invert (inv : ℤ) (s : DState) : DState :=
  write_cmd (.int ((0xA6 ||| (pyAnd inv 1).toNat : ℕ) : ℤ)) s

/-- rotate(rotate): _SET_COM_OUT_DIR | ((rotate & 1) << 3) then
_SET_SEG_REMAP | (rotate & 1). -/
def rotate (r : ℤ) (s : DState) : DState :=
  let s1 := write_cmd (.int ((0xC0 ||| ((pyAnd r 1).toNat <<< 3) : ℕ) : ℤ)) s
  write_cmd (.int ((0xA0 ||| (pyAnd r 1).toNat : ℕ) : ℤ)) s1

/-- show(): the for cmd in (...) loop passes the six addressing ints
and then the buffer itself to write_cmd (WIDTH-1 = 127,
self.pages - 1 = 7). -/
def show' (s : DState) : DState :=
  let s1 := write_cmd (.int 0x21) s
  let s2 := write_cmd (.int 0) s1
  let s3 := write_cmd (.int 127) s2
  let s4 := write_cmd (.int 0x22) s3
  let s5 := write_cmd (.int 0) s4
  let s6 := write_cmd (.int 7) s5
  write_cmd (.bytes s6.buffer) s6

/-- Inner for j in range(y-r, y+r+1) loop of circ(), fueled by the
iteration count.  With t truthy every point closer than r to the centre
is painted with the constant colour 1; with t falsy the annulus test
against (r - r*t - 1)^2 applies and the caller colour c is used. -/
def circInner (xc yc r : ℤ) (t : ℚ) (c : Bool) (i : ℤ) :
    ℕ → ℤ → DState → DState
  | 0, _, s => s
  | n+1, j, s =>
    let d := (i - xc) ^ 2 + (j - yc) ^ 2
    let s1 :=
      if t ≠ 0 then
        if d < r ^ 2 then pixel i j true s else s
      else
        if d < r ^ 2 ∧ ((d : ℚ) ≥ ((r : ℚ) - (r : ℚ) * t - 1) ^ 2) then pixel i j c s
        else s
    circInner xc yc r t c i n (j + 1) s1

/-- Outer for i in range(x-r, x+r+1) loop of circ(). -/
def circOuter (xc yc r : ℤ) (t : ℚ) (c : Bool) :
    ℕ → ℤ → DState → DState
  | 0, _, s => s
  | n+1, i, s =>
    circOuter xc yc r t c n (i + 1)
      (circInner xc yc r t c i ((2 * r + 1).toNat) (yc - r) s)

/-- circ(x, y, r, t, c): bounding-box scan over
[x-r, x+r] x [y-r, y+r]. -/
def circ (xc yc r : ℤ) (t : ℚ) (c : Bool) (s : DState) : DState :=
  circOuter xc yc r t c ((2 * r + 1).toNat) (xc - r) s

/-- Inner for ta in range(st_ang, en_ang) loop of arc().  The source
computes X = int(i*cos(radians(ta)) + x) and Y = int(i*sin(radians(ta)) + y)
with float trigonometry; the embedding abstracts that computation as an
arbitrary coordinate oracle trig applied to (i, ta). -/
def arcInner (trig : ℤ → ℤ → ℤ × ℤ) (c : Bool) (i : ℤ) :
    ℕ → ℤ → DState → DState
  | 0, _, s => s
  | n+1, ta, s =>
    let p := trig i ta
    arcInner trig c i n (ta + 1) (pixel p.1 p.2 c s)

/-- Outer for i in range(r*(1-t)-1, r) loop of arc() (t is an integer
here: with the default t = 0 the range is the single radius r-1; a
float t would make range() itself raise). -/
def arcOuter (trig : ℤ → ℤ → ℤ × ℤ) (c : Bool) (stAng enAng : ℤ) :
    ℕ → ℤ → DState → DState
  | 0, _, s => s
  | n+1, i, s =>
    arcOuter trig c stAng enAng n (i + 1)
      (arcInner trig c i ((enAng - stAng).toNat) stAng s)

/-- arc(x, y, r, st_ang, en_ang, t, c) with the float trigonometry
abstracted into the trig oracle. -/
def arc (trig : ℤ → ℤ → ℤ × ℤ) (r stAng enAng t : ℤ) (c : Bool)
    (s : DState) : DState :=
  arcOuter trig c stAng enAng (r - (r * (1 - t) - 1)).toNat (r * (1 - t) - 1) s

/-- Inner for bit in range(8) loop of load_pbm for one data byte b at
index byteIdx: a set bit paints pixel
(((8-bit) + byteIdx*8) % WIDTH, byteIdx*8 // WIDTH) (bit counts from
the least significant end, 8-bit never underflows).  The first ℕ
argument is the remaining iteration count, the second the current bit
index. -/
def pbmBitLoop (c : Bool) (b byteIdx : ℕ) : ℕ → ℕ → DState → DState
  | 0, _, s => s
  | n+1, bit, s =>
    let s1 :=
      if b &&& (1 <<< bit) ≠ 0 then
        let x_coord := ((8 - bit) + byteIdx * 8) % 128
        let y_coord := byteIdx * 8 / 128
        if x_coord < 128 ∧ y_coord < 64 then
          pixel (x_coord : ℕ) (y_coord : ℕ) c s
        else s
      else s
    pbmBitLoop c b byteIdx n (bit + 1) s1

/-- Outer for byte in range(WIDTH // PAGE_EDGE * HEIGHT) loop of
load_pbm: data_piicodev[byte] raises IndexError (which the except
FileNotFoundError clause does not catch) once byte reaches the data
length. -/
def pbmLoop (c : Bool) (data : List ℕ) : ℕ → ℕ → DState → Except PyErr DState
  | _, 0, s => .ok s
  | byteIdx, n+1, s =>
    match data[byteIdx]? with
    | none => .error .indexError
    | some b => pbmLoop c data (byteIdx + 1) n (pbmBitLoop c b byteIdx 8 0 s)

/-- The pixel-data section of load_pbm(filename, c): the source first
consumes the P4 magic line, one header line and any comment lines; the
remaining bytes are the data section processed here (lines 369-378 of
the source). -/
def load_pbm_data (c : Bool) (data : List ℕ) (s : DState) : Except PyErr DState :=
  pbmLoop c data 0 (128 / 8 * 64) s

/-- Python round() on an exact rational: nearest integer, ties to the
even neighbour, as the Python built-in round does. -/
def pyRound (q : ℚ) : ℤ :=
  let f : ℤ := ⌊q⌋
  if q - (f : ℚ) < 1/2 then f
  else if (1 : ℚ)/2 < q - (f : ℚ) then f + 1
  else if f % 2 = 0 then f else f + 1

/-- The Graph2D object: scale bounds, origin, size, colour, the derived
slope m = (1-height)/(max_value-min_value) and intercept
offset = origin_y - m*min_value, bar mode flag and the sample list
(most recent first). -/
structure Graph2D where
  min_value : ℚ
  max_value : ℚ
  origin_x : ℤ
  origin_y : ℤ
  width : ℤ
  height : ℤ
  c : Bool
  m : ℚ
  offset : ℚ
  bars : Bool
  data : List ℚ
deriving DecidableEq

/-- Graph2D.__init__ (data starts empty; division is exact rational
arithmetic in place of the float division of the source). -/
def mkGraph2D (origin_x origin_y width height : ℤ) (min_value max_value : ℚ)
    (c : Bool) (bars : Bool) : Graph2D :=
  let m : ℚ := (1 - (height : ℚ)) / (max_value - min_value)
  { min_value := min_value, max_value := max_value, origin_x := origin_x,
    origin_y := origin_y, width := width, height := height, c := c,
    m := m, offset := (origin_y : ℚ) - m * min_value, bars := bars,
    data := [] }

/-- The sample-list part of update(): graph.data.insert(0, value) then
graph.data.pop() when the length exceeds graph.width. -/
def pushSample (g : Graph2D) (value : ℚ) : Graph2D :=
  let data := value :: g.data
  let data := if (data.length : ℤ) > g.width then data.dropLast else data
  { g with data := data }

/-- The for idx in range(y, graph.origin_y+1) loop of the bar branch of
update(), fueled by the iteration count. -/
def barLoop (g : Graph2D) (x : ℤ) (c : Bool) : ℕ → ℤ → DState → DState
  | 0, _, s => s
  | n+1, idx, s =>
    let s1 :=
      if g.origin_x ≤ x ∧ x < g.origin_x + g.width ∧
         g.origin_y - g.height < idx ∧ idx ≤ g.origin_y then pixel x idx c s
      else s
    barLoop g x c n (idx + 1) s1

/-- The for value in graph.data rendering loop of update(): x starts at
origin_x + width - 1 and decreases by one per sample; each sample maps
to row y = round(m*value + offset). -/
def renderLoop (g : Graph2D) : List ℚ → ℤ → DState → DState
  | [], _, s => s
  | v :: rest, x, s =>
    let y := pyRound (g.m * v + g.offset)
    let s1 :=
      if g.bars then barLoop g x g.c ((g.origin_y + 1 - y).toNat) y s
      else
        if g.origin_x ≤ x ∧ x < g.origin_x + g.width ∧
           g.origin_y - g.height < y ∧ y ≤ g.origin_y then pixel x y g.c s
        else s
    renderLoop g rest (x - 1) s1

/-- update(graph, value): push the sample, then repaint the whole
window right to left. -/
def update (g : Graph2D) (value : ℚ) (s : DState) : DState × Graph2D :=
  let g1 := pushSample g value
  (renderLoop g1 g1.data (g1.origin_x + g1.width - 1) s, g1)

/-- The state right after PiicoDev_SSD1306.__init__: a zero-filled
1024-byte buffer, empty glyph dictionary, comms_err False, nothing on
the bus yet, and an all-success oracle. -/
def blankState : DState :=
  { buffer := List.replicate 1024 0, char_cols := [], commsErr := false,
    trace := [], outcomes := [] }

/-- A checkerboard-filled surface (alternating 0x55/0xAA bytes). -/
def checkerState : DState :=
  { blankState with
    buffer := (List.range 1024).map (fun i => if i % 2 = 0 then 0x55 else 0xAA) }

/-- Observation of the documented buffer layout: pixel (x, y) of the
surface is bit y % 8 of buffer byte x + (y / 8) * 128. -/
def surfGet (s : DState) (x y : ℕ) : Bool :=
  (s.buffer.getD (x + y / 8 * 128) 0).testBit (y % 8)

/-- Total number of data bytes transmitted through write_data (register
0x40) in a trace. -/
def dataBytesSent (t : List BusEvent) : ℕ :=
  (t.filter (fun e => e.reg == 0x40)).foldl (fun a e => a + e.payload.length) 0

/-- The trace of a fallible operation: the trace of the final state
when it returns, the given pre-trace when it raises (a raised operation
whose partial state is discarded). -/
def traceOf (r : Except PyErr DState) (t : List BusEvent) : List BusEvent :=
  match r with
  | .ok s => s.trace
  | .error _ => t

/-- Apply pixel with colour c to every listed coordinate in order. -/
def applyPixels (c : Bool) : List (ℤ × ℤ) → DState → DState
  | [], s => s
  | p :: rest, s => applyPixels c rest (pixel p.1 p.2 c s)

/-- Modelled from the spec (amended clip interval): the pixels a
line-mode plot repaint draws, one per sample, newest at
origin_x + width - 1, row pyRound (m*value + offset), drawn exactly
when the row lies in the half-open band (origin_y - height, origin_y]
and the column in the plot window. -/
def specLineCalls (g : Graph2D) : ℤ → List ℚ → List (ℤ × ℤ)
  | _, [] => []
  | x, v :: rest =>
    let y := pyRound (g.m * v + g.offset)
    (if g.origin_x ≤ x ∧ x < g.origin_x + g.width ∧
        g.origin_y - g.height < y ∧ y ≤ g.origin_y then [(x, y)] else []) ++
    specLineCalls g (x - 1) rest

instance instDecEqExcept {e a : Type} [DecidableEq e] [DecidableEq a] :
    DecidableEq (Except e a)
  | .error x, .error y =>
    if h : x = y then .isTrue (h ▸ rfl) else .isFalse (fun hc => h (by cases hc; rfl))
  | .error _, .ok _ => .isFalse (fun hc => by cases hc)
  | .ok _, .error _ => .isFalse (fun hc => by cases hc)
  | .ok x, .ok y =>
    if h : x = y then .isTrue (h ▸ rfl) else .isFalse (fun hc => h (by cases hc; rfl))

/-- A bitmap data section whose only set bit is the most significant
bit of byte 0 (followed by the zero padding of a full frame). -/
def pbmSingle : List ℕ := 0x80 :: List.replicate 1023 0

/-- Data byte i of a full-frame bitmap that encodes the 8x8 identity
diagonal in its top-left corner: row r (the first byte of row r is
byte 16r) holds 0x80 >> r, every other byte is zero. -/
def diagByte (i : ℕ) : ℕ :=
  if i % 16 = 0 ∧ i / 16 < 8 then 128 >>> (i / 16) else 0

/-- The full 1024-byte data section of the diagonal bitmap. -/
def diagData : List ℕ := (List.range 1024).map diagByte

/-- The buffer load_pbm actually produces from diagData: the diagonal
shifted one column to the right (pixels (1,0)..(8,7), so buffer byte
k = 2^(k-1) for k = 1..8). -/
def diagShifted : List ℕ :=
  0 :: [1, 2, 4, 8, 16, 32, 64, 128] ++ List.replicate 1015 0

/-- The trace t' extends t by successful command-register writes only:
no write_data (register 0x40) block ever appears among the new
events. -/
def cmdOnlyFrom (t t' : List BusEvent) : Prop :=
  ∃ evs, t' = t ++ evs ∧ ∀ e ∈ evs, e.reg = 0x80

set_option maxRecDepth 100000

/-! ### Arithmetic bridges: Python bit operations vs modulo -/

theorem sub_and_eq_ldiff (a : ℕ) : ∀ m : ℕ, a - (a &&& m) = Nat.ldiff a m := by
  induction a using Nat.binaryRec with
  | z =>
    intro m
    apply Nat.eq_of_testBit_eq
    intro i
    simp [Nat.testBit_ldiff]
  | f b n ih =>
    intro m
    rw [← Nat.bit_decomp m]
    rw [Nat.land_bit, Nat.ldiff_bit]
    have h1 : Nat.bit b n = 2 * n + cond b 1 0 := Nat.bit_val b n
    have h2 : Nat.bit (b && m.bodd) (n &&& m.div2) =
        2 * (n &&& m.div2) + cond (b && m.bodd) 1 0 := Nat.bit_val _ _
    have h3 : Nat.bit (b && !m.bodd) (Nat.ldiff n m.div2) =
        2 * (Nat.ldiff n m.div2) + cond (b && !m.bodd) 1 0 := Nat.bit_val _ _
    have h4 := ih m.div2
    have h5 : n &&& m.div2 ≤ n := Nat.and_le_left
    rw [h1, h2, h3]
    cases b <;> cases m.bodd <;> simp <;> omega

theorem pyAnd_127 (x : ℤ) : pyAnd x 127 = x % 128 := by
  cases x with
  | ofNat n =>
    show Int.ofNat (n &&& 127) = _
    have h : n &&& 127 = n % 128 := Nat.and_pow_two_sub_one_eq_mod n 7
    rw [h]
    simp only [Int.ofNat_eq_coe]
    omega
  | negSucc n =>
    show Int.ofNat (127 - (127 &&& n)) = _
    have h : 127 &&& n = n % 128 := by
      rw [Nat.and_comm]
      exact Nat.and_pow_two_sub_one_eq_mod n 7
    rw [h, Int.negSucc_eq]
    simp only [Int.ofNat_eq_coe]
    omega

theorem pyAnd_63 (y : ℤ) : pyAnd y 63 = y % 64 := by
  cases y with
  | ofNat n =>
    show Int.ofNat (n &&& 63) = _
    have h : n &&& 63 = n % 64 := Nat.and_pow_two_sub_one_eq_mod n 6
    rw [h]
    simp only [Int.ofNat_eq_coe]
    omega
  | negSucc n =>
    show Int.ofNat (63 - (63 &&& n)) = _
    have h : 63 &&& n = n % 64 := by
      rw [Nat.and_comm]
      exact Nat.and_pow_two_sub_one_eq_mod n 6
    rw [h, Int.negSucc_eq]
    simp only [Int.ofNat_eq_coe]
    omega

theorem pyNot_coe (s : ℕ) : pyNot (s : ℤ) = Int.negSucc s := by
  rw [Int.negSucc_eq]
  unfold pyNot
  ring

theorem clear_via_pyAnd (old s : ℕ) :
    (pyAnd (old : ℤ) (pyNot (s : ℤ))).toNat = old - (old &&& s) := by
  rw [pyNot_coe]
  rfl

theorem testBit_setByte (a off k : ℕ) :
    (a ||| (1 <<< off)).testBit k = (a.testBit k || decide (off = k)) := by
  rw [Nat.testBit_or, Nat.one_shiftLeft, Nat.testBit_two_pow]

theorem testBit_clearByte (a off k : ℕ) :
    (a - (a &&& (1 <<< off))).testBit k = (a.testBit k && !(decide (off = k))) := by
  rw [sub_and_eq_ldiff, Nat.testBit_ldiff, Nat.one_shiftLeft, Nat.testBit_two_pow]

theorem pow_and_pow (a b : ℕ) :
    (1 <<< a) &&& (1 <<< b) = if a = b then 1 <<< a else 0 := by
  apply Nat.eq_of_testBit_eq
  intro k
  rw [Nat.testBit_and, Nat.one_shiftLeft, Nat.one_shiftLeft,
    Nat.testBit_two_pow, Nat.testBit_two_pow]
  by_cases h : a = b
  · subst h
    simp [Nat.testBit_two_pow]
  · simp only [if_neg h, Nat.zero_testBit]
    by_cases ha : a = k
    · subst ha
      simp [fun hc => h hc]
      omega
    · simp [ha]

/-! ### Structural facts about the bus primitives and pixel -/

theorem write_cmd_buffer (v : PyVal) (s : DState) :
    (write_cmd v s).buffer = s.buffer := by
  rcases s with ⟨buf, cc, ce, tr, outs⟩
  unfold write_cmd takeOutcome
  cases h : bytesOfList v with
  | error e => rfl
  | ok payload =>
    dsimp only
    rcases outs with _ | ⟨b, rest⟩
    · rfl
    · cases b <;> rfl

theorem write_cmd_char_cols (v : PyVal) (s : DState) :
    (write_cmd v s).char_cols = s.char_cols := by
  rcases s with ⟨buf, cc, ce, tr, outs⟩
  unfold write_cmd takeOutcome
  cases h : bytesOfList v with
  | error e => rfl
  | ok payload =>
    dsimp only
    rcases outs with _ | ⟨b, rest⟩
    · rfl
    · cases b <;> rfl

theorem write_cmd_cmdOnly (v : PyVal) (s : DState) :
    cmdOnlyFrom s.trace (write_cmd v s).trace := by
  rcases s with ⟨buf, cc, ce, tr, outs⟩
  unfold write_cmd takeOutcome
  cases h : bytesOfList v with
  | error e => exact ⟨[], by simp, by simp⟩
  | ok payload =>
    dsimp only
    rcases outs with _ | ⟨b, rest⟩
    · exact ⟨[⟨0x80, payload⟩], rfl, by simp⟩
    · cases b
      · exact ⟨[], by simp, by simp⟩
      · exact ⟨[⟨0x80, payload⟩], rfl, by simp⟩

theorem cmdOnlyFrom_refl (t : List BusEvent) : cmdOnlyFrom t t :=
  ⟨[], by simp, by simp⟩

theorem cmdOnlyFrom_trans {t1 t2 t3 : List BusEvent} :
    cmdOnlyFrom t1 t2 → cmdOnlyFrom t2 t3 → cmdOnlyFrom t1 t3 := by
  rintro ⟨e1, rfl, h1⟩ ⟨e2, rfl, h2⟩
  refine ⟨e1 ++ e2, by simp, ?_⟩
  intro e he
  rcases List.mem_append.mp he with h | h
  · exact h1 e h
  · exact h2 e h

theorem set_pos_buffer (col page : ℕ) (s : DState) :
    (set_pos col page s).buffer = s.buffer := by
  unfold set_pos
  rw [write_cmd_buffer, write_cmd_buffer, write_cmd_buffer]

theorem set_pos_char_cols (col page : ℕ) (s : DState) :
    (set_pos col page s).char_cols = s.char_cols := by
  unfold set_pos
  rw [write_cmd_char_cols, write_cmd_char_cols, write_cmd_char_cols]

theorem set_pos_cmdOnly (col page : ℕ) (s : DState) :
    cmdOnlyFrom s.trace (set_pos col page s).trace := by
  unfold set_pos
  exact cmdOnlyFrom_trans (cmdOnlyFrom_trans (write_cmd_cmdOnly _ _) (write_cmd_cmdOnly _ _))
    (write_cmd_cmdOnly _ _)

theorem pixel_buffer_spec (x y : ℤ) (c : Bool) (s : DState) :
    (pixel x y c s).buffer =
      s.buffer.set ((x % 128).toNat + ((y % 64).toNat / 8) * 128)
        (if c then
           s.buffer.getD ((x % 128).toNat + ((y % 64).toNat / 8) * 128) 0 |||
             (1 <<< ((y % 64).toNat % 8))
         else
           s.buffer.getD ((x % 128).toNat + ((y % 64).toNat / 8) * 128) 0 -
             (s.buffer.getD ((x % 128).toNat + ((y % 64).toNat / 8) * 128) 0 &&&
               (1 <<< ((y % 64).toNat % 8)))) := by
  simp only [pixel, set_pos_buffer, pyAnd_127, pyAnd_63]
  cases c
  · simp only [Bool.false_eq_true, if_false, clear_via_pyAnd]
  · rfl

theorem pixel_char_cols (x y : ℤ) (c : Bool) (s : DState) :
    (pixel x y c s).char_cols = s.char_cols := by
  unfold pixel
  rw [set_pos_char_cols]

theorem pixel_cmdOnly (x y : ℤ) (c : Bool) (s : DState) :
    cmdOnlyFrom s.trace (pixel x y c s).trace := by
  simp only [pixel]
  exact set_pos_cmdOnly _ _ _

theorem pixel_buffer_length (x y : ℤ) (c : Bool) (s : DState) :
    (pixel x y c s).buffer.length = s.buffer.length := by
  rw [pixel_buffer_spec, List.length_set]

theorem getD_set_self (l : List ℕ) (i : ℕ) (b : ℕ) (h : i < l.length) :
    (l.set i b).getD i 0 = b := by
  rw [List.getD_eq_getElem?_getD, List.getElem?_set_self h]
  rfl

theorem getD_set_ne (l : List ℕ) (i j : ℕ) (b : ℕ) (h : i ≠ j) :
    (l.set i b).getD j 0 = l.getD j 0 := by
  rw [List.getD_eq_getElem?_getD, List.getElem?_set_ne h, ← List.getD_eq_getElem?_getD]

theorem surfGet_pixel (x y : ℤ) (c : Bool) (s : DState)
    (h : s.buffer.length = 1024) (hx0 : 0 ≤ x) (hx : x < 128)
    (hy0 : 0 ≤ y) (hy : y < 64) (X Y : ℕ) (hX : X < 128) (hY : Y < 64) :
    surfGet (pixel x y c s) X Y =
      if (X : ℤ) = x ∧ (Y : ℤ) = y then c else surfGet s X Y := by
  have hxt : x.toNat < 128 := by omega
  have hyt : y.toNat < 64 := by omega
  have hxx : (x % 128).toNat = x.toNat := by omega
  have hyy : (y % 64).toNat = y.toNat := by omega
  have hlt : x.toNat + y.toNat / 8 * 128 < s.buffer.length := by
    rw [h]
    omega
  unfold surfGet
  rw [pixel_buffer_spec, hxx, hyy]
  by_cases hidx : X + Y / 8 * 128 = x.toNat + y.toNat / 8 * 128
  case pos =>
    have hXx : X = x.toNat := by omega
    have hYp : Y / 8 = y.toNat / 8 := by omega
    rw [hidx, getD_set_self _ _ _ hlt]
    by_cases hYy : Y = y.toNat
    case pos =>
      have hcond : (X : ℤ) = x ∧ (Y : ℤ) = y := ⟨by omega, by omega⟩
      rw [if_pos hcond]
      have hoff : y.toNat % 8 = Y % 8 := by rw [hYy]
      cases c <;> simp [testBit_setByte, testBit_clearByte, hoff]
    case neg =>
      have hcond : ¬((X : ℤ) = x ∧ (Y : ℤ) = y) := by omega
      rw [if_neg hcond]
      have hoff : ¬(y.toNat % 8 = Y % 8) := by omega
      cases c
      case false =>
        rw [if_neg Bool.false_ne_true, testBit_clearByte]
        simp [hoff]
      case true =>
        rw [if_pos rfl, testBit_setByte]
        simp [hoff]
  case neg =>
    rw [getD_set_ne _ _ _ _ (fun hc => hidx hc.symm)]
    rw [if_neg (by omega)]

/-! ### Buffer preservation and command-only traces for the bus operations -/

theorem foldl_write_cmd_buffer (l : List ℤ) :
    ∀ s : DState, ((l.foldl (fun s cmd => write_cmd (.int cmd) s) s)).buffer = s.buffer := by
  induction l with
  | nil => intro s; rfl
  | cons a l ih =>
    intro s
    rw [List.foldl_cons, ih, write_cmd_buffer]

theorem show'_buffer (s : DState) : (show' s).buffer = s.buffer := by
  simp only [show']
  rw [write_cmd_buffer, write_cmd_buffer, write_cmd_buffer, write_cmd_buffer,
    write_cmd_buffer, write_cmd_buffer, write_cmd_buffer]

theorem show'_char_cols (s : DState) : (show' s).char_cols = s.char_cols := by
  simp only [show']
  rw [write_cmd_char_cols, write_cmd_char_cols, write_cmd_char_cols, write_cmd_char_cols,
    write_cmd_char_cols, write_cmd_char_cols, write_cmd_char_cols]

theorem init_display_buffer (s : DState) : (init_display s).buffer = s.buffer :=
  foldl_write_cmd_buffer _ s

theorem poweron_buffer (s : DState) : (poweron s).buffer = s.buffer :=
  write_cmd_buffer _ s

theorem poweroff_buffer (s : DState) : (poweroff s).buffer = s.buffer :=
  write_cmd_buffer _ s

theorem set_contrast_buffer (contrast : ℤ) (s : DState) :
    (set_contrast contrast s).buffer = s.buffer := by
  unfold set_contrast
  rw [write_cmd_buffer, write_cmd_buffer]

theorem invert_buffer (inv : ℤ) (s : DState) : (invert inv s).buffer = s.buffer :=
  write_cmd_buffer _ s

theorem rotate_buffer (r : ℤ) (s : DState) : (rotate r s).buffer = s.buffer := by
  unfold rotate
  rw [write_cmd_buffer, write_cmd_buffer]

theorem write_cmd_outcomes_nil (v : PyVal) (s : DState) (h : s.outcomes = []) :
    (write_cmd v s).outcomes = [] := by
  rcases s with ⟨buf, cc, ce, tr, outs⟩
  subst h
  unfold write_cmd takeOutcome
  cases hb : bytesOfList v with
  | error e => rfl
  | ok payload => rfl

theorem write_cmd_int_success (n : ℤ) (h0 : 0 ≤ n) (h256 : n < 256) (s : DState)
    (houts : s.outcomes = []) :
    write_cmd (.int n) s =
      { s with trace := s.trace ++ [⟨0x80, [n.toNat]⟩], commsErr := false } := by
  have hb : bytesOfList (.int n) = .ok [n.toNat] := by
    show (if 0 ≤ n ∧ n < 256 then (Except.ok [n.toNat] : Except PyErr (List ℕ))
      else .error .valueError) = .ok [n.toNat]
    rw [if_pos ⟨h0, h256⟩]
  have ht : takeOutcome s = (true, s) := by
    unfold takeOutcome
    rw [houts]
  unfold write_cmd
  rw [hb]
  dsimp only
  rw [ht]

theorem write_cmd_bytes_fails (bs : List ℕ) (s : DState) :
    write_cmd (.bytes bs) s = { s with commsErr := true } := rfl

theorem show'_spec (s : DState) (houts : s.outcomes = []) :
    show' s = { s with
      trace := s.trace ++ [⟨0x80, [0x21]⟩, ⟨0x80, [0]⟩, ⟨0x80, [127]⟩,
        ⟨0x80, [0x22]⟩, ⟨0x80, [0]⟩, ⟨0x80, [7]⟩],
      commsErr := true } := by
  rcases s with ⟨buf, cc, ce, tr, outs⟩
  subst houts
  simp only [show']
  rw [write_cmd_int_success 0x21 (by norm_num) (by norm_num) _ rfl]
  rw [write_cmd_int_success 0 (by norm_num) (by norm_num) _ rfl]
  rw [write_cmd_int_success 127 (by norm_num) (by norm_num) _ rfl]
  rw [write_cmd_int_success 0x22 (by norm_num) (by norm_num) _ rfl]
  rw [write_cmd_int_success 0 (by norm_num) (by norm_num) _ rfl]
  rw [write_cmd_int_success 7 (by norm_num) (by norm_num) _ rfl]
  rw [write_cmd_bytes_fails]
  simp

theorem fill_trace (c : ℕ) (s : DState) : (fill c s).trace = s.trace := by
  unfold fill
  split <;> rfl

theorem lineLoop_cmdOnly (steep c : Bool) (dx dy ystep : ℤ) :
    ∀ (fuel : ℕ) (x1 y1 : ℤ) (err : ℚ) (s : DState),
      cmdOnlyFrom s.trace (lineLoop steep c dx dy ystep fuel x1 y1 err s).trace
  | 0, _, _, _, s => cmdOnlyFrom_refl _
  | fuel+1, x1, y1, err, s => by
    simp only [lineLoop]
    have h1 : cmdOnlyFrom s.trace
        (if steep then pixel y1 x1 c s else pixel x1 y1 c s).trace := by
      cases steep
      · exact pixel_cmdOnly _ _ _ _
      · exact pixel_cmdOnly _ _ _ _
    split
    · exact cmdOnlyFrom_trans h1 (lineLoop_cmdOnly steep c dx dy ystep fuel _ _ _ _)
    · exact cmdOnlyFrom_trans h1 (lineLoop_cmdOnly steep c dx dy ystep fuel _ _ _ _)

theorem line_cmdOnly (x1 y1 x2 y2 : ℤ) (c : Bool) (s : DState) :
    cmdOnlyFrom s.trace (line x1 y1 x2 y2 c s).trace := by
  simp only [line]
  exact lineLoop_cmdOnly _ _ _ _ _ _ _ _ _ _

theorem hline_cmdOnly (x y l : ℤ) (c : Bool) (s : DState) :
    cmdOnlyFrom s.trace (hline x y l c s).trace := line_cmdOnly _ _ _ _ _ _

theorem vline_cmdOnly (x y h : ℤ) (c : Bool) (s : DState) :
    cmdOnlyFrom s.trace (vline x y h c s).trace := line_cmdOnly _ _ _ _ _ _

theorem rect_cmdOnly (x y w h : ℤ) (c : Bool) (s : DState) :
    cmdOnlyFrom s.trace (rect x y w h c s).trace := by
  unfold rect
  exact cmdOnlyFrom_trans (cmdOnlyFrom_trans (cmdOnlyFrom_trans
    (hline_cmdOnly _ _ _ _ _) (hline_cmdOnly _ _ _ _ _)) (vline_cmdOnly _ _ _ _ _))
    (vline_cmdOnly _ _ _ _ _)

theorem fillRectLoop_cmdOnly (x w : ℤ) (c : Bool) :
    ∀ (n : ℕ) (i : ℤ) (s : DState),
      cmdOnlyFrom s.trace (fillRectLoop x w c n i s).trace
  | 0, _, s => cmdOnlyFrom_refl _
  | n+1, i, s => by
    simp only [fillRectLoop]
    exact cmdOnlyFrom_trans (hline_cmdOnly _ _ _ _ _)
      (fillRectLoop_cmdOnly x w c n _ _)

theorem fill_rect_cmdOnly (x y w h : ℤ) (c : Bool) (s : DState) :
    cmdOnlyFrom s.trace (fill_rect x y w h c s).trace :=
  fillRectLoop_cmdOnly _ _ _ _ _ _

theorem circInner_cmdOnly (xc yc r : ℤ) (t : ℚ) (c : Bool) (i : ℤ) :
    ∀ (n : ℕ) (j : ℤ) (s : DState),
      cmdOnlyFrom s.trace (circInner xc yc r t c i n j s).trace
  | 0, _, s => cmdOnlyFrom_refl _
  | n+1, j, s => by
    simp only [circInner]
    have h1 : ∀ s1 : DState, cmdOnlyFrom s.trace s1.trace →
        cmdOnlyFrom s.trace (circInner xc yc r t c i n (j+1) s1).trace := by
      intro s1 h
      exact cmdOnlyFrom_trans h (circInner_cmdOnly xc yc r t c i n _ _)
    apply h1
    split
    · split
      · exact pixel_cmdOnly _ _ _ _
      · exact cmdOnlyFrom_refl _
    · split
      · exact pixel_cmdOnly _ _ _ _
      · exact cmdOnlyFrom_refl _

theorem circOuter_cmdOnly (xc yc r : ℤ) (t : ℚ) (c : Bool) :
    ∀ (n : ℕ) (i : ℤ) (s : DState),
      cmdOnlyFrom s.trace (circOuter xc yc r t c n i s).trace
  | 0, _, s => cmdOnlyFrom_refl _
  | n+1, i, s => by
    simp only [circOuter]
    exact cmdOnlyFrom_trans (circInner_cmdOnly _ _ _ _ _ _ _ _ _)
      (circOuter_cmdOnly xc yc r t c n _ _)

theorem circ_cmdOnly (xc yc r : ℤ) (t : ℚ) (c : Bool) (s : DState) :
    cmdOnlyFrom s.trace (circ xc yc r t c s).trace :=
  circOuter_cmdOnly _ _ _ _ _ _ _ _

theorem arcInner_cmdOnly (trig : ℤ → ℤ → ℤ × ℤ) (c : Bool) (i : ℤ) :
    ∀ (n : ℕ) (ta : ℤ) (s : DState),
      cmdOnlyFrom s.trace (arcInner trig c i n ta s).trace
  | 0, _, s => cmdOnlyFrom_refl _
  | n+1, ta, s => by
    simp only [arcInner]
    exact cmdOnlyFrom_trans (pixel_cmdOnly _ _ _ _)
      (arcInner_cmdOnly trig c i n _ _)

theorem arcOuter_cmdOnly (trig : ℤ → ℤ → ℤ × ℤ) (c : Bool) (stAng enAng : ℤ) :
    ∀ (n : ℕ) (i : ℤ) (s : DState),
      cmdOnlyFrom s.trace (arcOuter trig c stAng enAng n i s).trace
  | 0, _, s => cmdOnlyFrom_refl _
  | n+1, i, s => by
    simp only [arcOuter]
    exact cmdOnlyFrom_trans (arcInner_cmdOnly _ _ _ _ _ _)
      (arcOuter_cmdOnly trig c stAng enAng n _ _)

theorem arc_cmdOnly (trig : ℤ → ℤ → ℤ × ℤ) (r stAng enAng t : ℤ) (c : Bool)
    (s : DState) : cmdOnlyFrom s.trace (arc trig r stAng enAng t c s).trace :=
  arcOuter_cmdOnly _ _ _ _ _ _ _

theorem pbmBitLoop_cmdOnly (c : Bool) (b byteIdx : ℕ) :
    ∀ (n bit : ℕ) (s : DState),
      cmdOnlyFrom s.trace (pbmBitLoop c b byteIdx n bit s).trace
  | 0, _, s => cmdOnlyFrom_refl _
  | n+1, bit, s => by
    simp only [pbmBitLoop]
    have h1 : ∀ s1 : DState, cmdOnlyFrom s.trace s1.trace →
        cmdOnlyFrom s.trace (pbmBitLoop c b byteIdx n (bit+1) s1).trace := by
      intro s1 h
      exact cmdOnlyFrom_trans h (pbmBitLoop_cmdOnly c b byteIdx n _ _)
    apply h1
    split
    · split
      · exact pixel_cmdOnly _ _ _ _
      · exact cmdOnlyFrom_refl _
    · exact cmdOnlyFrom_refl _

theorem pbmLoop_cmdOnly (c : Bool) (data : List ℕ) :
    ∀ (n byteIdx : ℕ) (s : DState),
      cmdOnlyFrom s.trace (traceOf (pbmLoop c data byteIdx n s) s.trace)
  | 0, _, s => cmdOnlyFrom_refl _
  | n+1, byteIdx, s => by
    simp only [pbmLoop]
    cases h : data[byteIdx]? with
    | none => exact cmdOnlyFrom_refl _
    | some b =>
      dsimp only
      have h1 := pbmBitLoop_cmdOnly c b byteIdx 8 0 s
      have h2 := pbmLoop_cmdOnly c data n (byteIdx + 1) (pbmBitLoop c b byteIdx 8 0 s)
      cases hr : pbmLoop c data (byteIdx + 1) n (pbmBitLoop c b byteIdx 8 0 s) with
      | error e => exact cmdOnlyFrom_refl _
      | ok s2 =>
        rw [hr] at h2
        exact cmdOnlyFrom_trans h1 h2

theorem load_pbm_cmdOnly (c : Bool) (data : List ℕ) (s : DState) :
    cmdOnlyFrom s.trace (traceOf (load_pbm_data c data s) s.trace) :=
  pbmLoop_cmdOnly c data _ 0 s

theorem barLoop_cmdOnly (g : Graph2D) (x : ℤ) (c : Bool) :
    ∀ (n : ℕ) (idx : ℤ) (s : DState),
      cmdOnlyFrom s.trace (barLoop g x c n idx s).trace
  | 0, _, s => cmdOnlyFrom_refl _
  | n+1, idx, s => by
    simp only [barLoop]
    have h1 : ∀ s1 : DState, cmdOnlyFrom s.trace s1.trace →
        cmdOnlyFrom s.trace (barLoop g x c n (idx+1) s1).trace := by
      intro s1 h
      exact cmdOnlyFrom_trans h (barLoop_cmdOnly g x c n _ _)
    apply h1
    split
    · exact pixel_cmdOnly _ _ _ _
    · exact cmdOnlyFrom_refl _

theorem renderLoop_cmdOnly (g : Graph2D) :
    ∀ (d : List ℚ) (x : ℤ) (s : DState),
      cmdOnlyFrom s.trace (renderLoop g d x s).trace
  | [], _, s => cmdOnlyFrom_refl _
  | v :: rest, x, s => by
    simp only [renderLoop]
    have h1 : ∀ s1 : DState, cmdOnlyFrom s.trace s1.trace →
        cmdOnlyFrom s.trace (renderLoop g rest (x-1) s1).trace := by
      intro s1 h
      exact cmdOnlyFrom_trans h (renderLoop_cmdOnly g rest _ _)
    apply h1
    split
    · exact barLoop_cmdOnly _ _ _ _ _ _
    · split
      · exact pixel_cmdOnly _ _ _ _
      · exact cmdOnlyFrom_refl _

theorem update_cmdOnly (g : Graph2D) (v : ℚ) (s : DState) :
    cmdOnlyFrom s.trace (update g v s).1.trace :=
  renderLoop_cmdOnly _ _ _ _

theorem textColLoop_ok (x y : ℤ) (cx : ℕ) :
    ∀ (n cy : ℕ) (s s1 : DState), textColLoop x y cx n cy s = .ok s1 → s1 = s
  | 0, _, s, s1, h => by cases h; rfl
  | n+1, cy, s, s1, h => by
    rw [textColLoop] at h
    by_cases hc : x + (cx : ℤ) < 128 ∧ y + (cy : ℤ) < 64
    · rw [if_pos hc] at h
      cases h
    · rw [if_neg hc] at h
      exact textColLoop_ok x y cx n (cy+1) s s1 h

theorem textColLoop_cmdOnly (x y : ℤ) (cx : ℕ) (s : DState) :
    cmdOnlyFrom s.trace (traceOf (textColLoop x y cx 8 0 s) s.trace) := by
  cases h : textColLoop x y cx 8 0 s with
  | error e => exact cmdOnlyFrom_refl _
  | ok s1 =>
    rw [textColLoop_ok x y cx 8 0 s s1 h]
    exact cmdOnlyFrom_refl _

theorem textDrawLoop_cmdOnly (x y : ℤ) :
    ∀ (cols : List (List ℕ)) (cx : ℕ) (s : DState),
      cmdOnlyFrom s.trace (traceOf (textDrawLoop x y cx cols s) s.trace)
  | [], _, s => cmdOnlyFrom_refl _
  | col :: rest, cx, s => by
    simp only [textDrawLoop]
    cases h : textColLoop x y cx 8 0 s with
    | error e => exact cmdOnlyFrom_refl _
    | ok s1 =>
      dsimp only
      have hs1 : s1 = s := textColLoop_ok x y cx 8 0 s s1 h
      subst hs1
      have h2 := textDrawLoop_cmdOnly x y rest (cx+1) s1
      cases hr : textDrawLoop x y (cx+1) rest s1 with
      | error e => exact cmdOnlyFrom_refl _
      | ok s2 =>
        rw [hr] at h2
        exact h2

theorem text_cmdOnly (font : Option (List ℕ)) (str : List Char) (x y : ℤ)
    (c : Bool) (s : DState) :
    cmdOnlyFrom s.trace (traceOf (text font str x y c s) s.trace) := by
  simp only [text]
  cases h : collectCols (get_char_cols font s.char_cols) str with
  | error e => exact cmdOnlyFrom_refl _
  | ok cols =>
    dsimp only
    exact textDrawLoop_cmdOnly x y cols 0
      { s with char_cols := get_char_cols font s.char_cols }

/-! ### Evaluation lemmas for the bitmap importer loop -/

theorem pbmBitLoop_zero (c : Bool) (i : ℕ) :
    ∀ (n bit : ℕ) (s : DState), pbmBitLoop c 0 i n bit s = s
  | 0, _, _ => rfl
  | n+1, bit, s => by
    rw [pbmBitLoop]
    simp only [Nat.zero_and, ne_eq, not_true_eq_false, if_false]
    exact pbmBitLoop_zero c i n (bit+1) s

theorem pbmBitLoop_pow_skip (c : Bool) (bv i : ℕ) :
    ∀ (n bit : ℕ) (s : DState), bv < bit →
      pbmBitLoop c (1 <<< bv) i n bit s = s
  | 0, _, _, _ => rfl
  | n+1, bit, s, h => by
    rw [pbmBitLoop]
    rw [pow_and_pow]
    rw [if_neg (by omega : ¬bv = bit)]
    simp only [ne_eq, not_true_eq_false, if_false]
    exact pbmBitLoop_pow_skip c bv i n (bit+1) s (by omega)

theorem pbmBitLoop_pow (c : Bool) (bv i : ℕ) (hi : i < 1024) :
    ∀ (n bit : ℕ) (s : DState), bit ≤ bv → bv < bit + n → bv < 8 →
      pbmBitLoop c (1 <<< bv) i n bit s =
        pixel ((((8 - bv) + i * 8) % 128 : ℕ) : ℤ) (((i * 8 / 128 : ℕ)) : ℤ) c s
  | 0, bit, s, hlo, hhi, h8 => by omega
  | n+1, bit, s, hlo, hhi, h8 => by
    rw [pbmBitLoop, pow_and_pow]
    by_cases heq : bv = bit
    · subst heq
      rw [if_pos rfl]
      have hne : (1 <<< bv) ≠ 0 := by
        rw [Nat.one_shiftLeft]
        exact (Nat.pos_pow_of_pos bv (by norm_num)).ne'
      simp only [ne_eq, hne, not_false_eq_true, if_true]
      rw [if_pos ⟨Nat.mod_lt _ (by norm_num), by omega⟩]
      exact pbmBitLoop_pow_skip c bv i n (bv+1) _ (by omega)
    · rw [if_neg heq]
      simp only [ne_eq, not_true_eq_false, if_false]
      exact pbmBitLoop_pow c bv i hi n (bit+1) s (by omega) (by omega) h8

theorem pbmLoop_skip (c : Bool) (data : List ℕ) :
    ∀ (k i n : ℕ) (s : DState), k ≤ n → (∀ j, j < k → data[i+j]? = some 0) →
      pbmLoop c data i n s = pbmLoop c data (i+k) (n-k) s
  | 0, i, n, s, _, _ => by simp
  | k+1, i, n, s, hk, hz => by
    obtain ⟨m, rfl⟩ : ∃ m, n = m + 1 := ⟨n - 1, by omega⟩
    have h0 : data[i]? = some 0 := by simpa using hz 0 (by omega)
    have hrest : ∀ j, j < k → data[(i+1)+j]? = some 0 := by
      intro j hj
      have := hz (j+1) (by omega)
      simpa [Nat.add_assoc, Nat.add_comm 1 j] using this
    rw [pbmLoop, h0]
    dsimp only
    rw [pbmBitLoop_zero]
    rw [pbmLoop_skip c data k (i+1) m s (by omega) hrest]
    congr 1 <;> omega

theorem pbmLoop_done (c : Bool) (data : List ℕ) (i : ℕ) (s : DState) :
    pbmLoop c data i 0 s = .ok s := rfl

theorem pbmLoop_step (c : Bool) (data : List ℕ) (i n : ℕ) (b : ℕ) (s : DState)
    (h : data[i]? = some b) :
    pbmLoop c data i (n+1) s = pbmLoop c data (i+1) n (pbmBitLoop c b i 8 0 s) := by
  rw [pbmLoop, h]

theorem getD_replicate_zero (n j : ℕ) : (List.replicate n (0:ℕ)).getD j 0 = 0 := by
  rw [List.getD_eq_getElem?_getD, List.getElem?_replicate]
  split <;> rfl

theorem diagData_get (m : ℕ) (hm : m < 1024) : diagData[m]? = some (diagByte m) := by
  unfold diagData
  rw [List.getElem?_map, List.getElem?_range hm]
  rfl

theorem load_single (i b : ℕ) (hi : i < 1024) (hb : b < 8) :
    load_pbm_data true
        (List.replicate i 0 ++ (1 <<< b) :: List.replicate (1023 - i) 0) blankState =
      .ok (pixel ((((8 - b) + i * 8) % 128 : ℕ) : ℤ) ((i * 8 / 128 : ℕ) : ℤ) true
        blankState) := by
  have hlen : (List.replicate i (0:ℕ)).length = i := List.length_replicate i 0
  have hz1 : ∀ j, j < i →
      (List.replicate i 0 ++ (1 <<< b) :: List.replicate (1023 - i) 0)[0+j]? = some 0 := by
    intro j hj
    rw [Nat.zero_add, List.getElem?_append_left (by rw [hlen]; exact hj),
      List.getElem?_replicate]
    rw [if_pos hj]
  have hmid : (List.replicate i 0 ++ (1 <<< b) :: List.replicate (1023 - i) 0)[i]? =
      some (1 <<< b) := by
    rw [List.getElem?_append_right (by rw [hlen])]
    rw [hlen]
    simp
  have hz2 : ∀ j, j < 1023 - i →
      (List.replicate i 0 ++ (1 <<< b) :: List.replicate (1023 - i) 0)[(i+1)+j]? = some 0 := by
    intro j hj
    rw [List.getElem?_append_right (by rw [hlen]; omega)]
    rw [hlen]
    have : i + 1 + j - i = j + 1 := by omega
    rw [this]
    rw [List.getElem?_cons_succ, List.getElem?_replicate]
    rw [if_pos hj]
  show pbmLoop true _ 0 1024 blankState = _
  rw [pbmLoop_skip true _ i 0 1024 blankState (by omega) hz1]
  rw [Nat.zero_add]
  obtain ⟨m, hm⟩ : ∃ m, 1024 - i = m + 1 := ⟨1023 - i, by omega⟩
  rw [hm]
  rw [pbmLoop_step true _ i m (1 <<< b) blankState hmid]
  rw [pbmBitLoop_pow true b i hi 8 0 blankState (by omega) (by omega) hb]
  rw [pbmLoop_skip true _ (1023 - i) (i+1) m _ (by omega) hz2]
  have : m - (1023 - i) = 0 := by omega
  rw [this]
  exact pbmLoop_done _ _ _ _

theorem load_diag :
    load_pbm_data true diagData blankState =
      .ok (pixel ((8:ℕ) : ℤ) ((7:ℕ) : ℤ) true
        (pixel ((7:ℕ) : ℤ) ((6:ℕ) : ℤ) true
        (pixel ((6:ℕ) : ℤ) ((5:ℕ) : ℤ) true
        (pixel ((5:ℕ) : ℤ) ((4:ℕ) : ℤ) true
        (pixel ((4:ℕ) : ℤ) ((3:ℕ) : ℤ) true
        (pixel ((3:ℕ) : ℤ) ((2:ℕ) : ℤ) true
        (pixel ((2:ℕ) : ℤ) ((1:ℕ) : ℤ) true
        (pixel ((1:ℕ) : ℤ) ((0:ℕ) : ℤ) true blankState)))))))) := by
  have hb0 : diagData[(0 : ℕ)]? = some (1 <<< 7) := by
    rw [diagData_get 0 (by norm_num)]
    rfl
  have hb1 : diagData[(16 : ℕ)]? = some (1 <<< 6) := by
    rw [diagData_get 16 (by norm_num)]
    rfl
  have hb2 : diagData[(32 : ℕ)]? = some (1 <<< 5) := by
    rw [diagData_get 32 (by norm_num)]
    rfl
  have hb3 : diagData[(48 : ℕ)]? = some (1 <<< 4) := by
    rw [diagData_get 48 (by norm_num)]
    rfl
  have hb4 : diagData[(64 : ℕ)]? = some (1 <<< 3) := by
    rw [diagData_get 64 (by norm_num)]
    rfl
  have hb5 : diagData[(80 : ℕ)]? = some (1 <<< 2) := by
    rw [diagData_get 80 (by norm_num)]
    rfl
  have hb6 : diagData[(96 : ℕ)]? = some (1 <<< 1) := by
    rw [diagData_get 96 (by norm_num)]
    rfl
  have hb7 : diagData[(112 : ℕ)]? = some (1 <<< 0) := by
    rw [diagData_get 112 (by norm_num)]
    rfl
  have hz0 : ∀ j, j < 15 → diagData[(1 : ℕ)+j]? = some 0 := by
    intro j hj
    rw [diagData_get _ (by omega)]
    unfold diagByte
    rw [if_neg (by omega)]
  have hz1 : ∀ j, j < 15 → diagData[(17 : ℕ)+j]? = some 0 := by
    intro j hj
    rw [diagData_get _ (by omega)]
    unfold diagByte
    rw [if_neg (by omega)]
  have hz2 : ∀ j, j < 15 → diagData[(33 : ℕ)+j]? = some 0 := by
    intro j hj
    rw [diagData_get _ (by omega)]
    unfold diagByte
    rw [if_neg (by omega)]
  have hz3 : ∀ j, j < 15 → diagData[(49 : ℕ)+j]? = some 0 := by
    intro j hj
    rw [diagData_get _ (by omega)]
    unfold diagByte
    rw [if_neg (by omega)]
  have hz4 : ∀ j, j < 15 → diagData[(65 : ℕ)+j]? = some 0 := by
    intro j hj
    rw [diagData_get _ (by omega)]
    unfold diagByte
    rw [if_neg (by omega)]
  have hz5 : ∀ j, j < 15 → diagData[(81 : ℕ)+j]? = some 0 := by
    intro j hj
    rw [diagData_get _ (by omega)]
    unfold diagByte
    rw [if_neg (by omega)]
  have hz6 : ∀ j, j < 15 → diagData[(97 : ℕ)+j]? = some 0 := by
    intro j hj
    rw [diagData_get _ (by omega)]
    unfold diagByte
    rw [if_neg (by omega)]
  have hz7 : ∀ j, j < 911 → diagData[(113 : ℕ)+j]? = some 0 := by
    intro j hj
    rw [diagData_get _ (by omega)]
    unfold diagByte
    rw [if_neg (by omega)]
  show pbmLoop true diagData 0 1024 blankState = _
  rw [show (1024 : ℕ) = 1023 + 1 from rfl]
  rw [pbmLoop_step true diagData 0 1023 (1 <<< 7) blankState hb0]
  rw [pbmBitLoop_pow true 7 0 (by norm_num) 8 0 _ (by omega) (by omega) (by omega)]
  norm_num
  rw [pbmLoop_skip true diagData 15 1 1023 _ (by omega) hz0]
  rw [show (1 : ℕ) + 15 = 16 from rfl, show (1023 : ℕ) - 15 = 1007 + 1 from rfl]
  rw [pbmLoop_step true diagData 16 1007 (1 <<< 6) _ hb1]
  rw [pbmBitLoop_pow true 6 16 (by norm_num) 8 0 _ (by omega) (by omega) (by omega)]
  norm_num
  rw [pbmLoop_skip true diagData 15 17 1007 _ (by omega) hz1]
  rw [show (17 : ℕ) + 15 = 32 from rfl, show (1007 : ℕ) - 15 = 991 + 1 from rfl]
  rw [pbmLoop_step true diagData 32 991 (1 <<< 5) _ hb2]
  rw [pbmBitLoop_pow true 5 32 (by norm_num) 8 0 _ (by omega) (by omega) (by omega)]
  norm_num
  rw [pbmLoop_skip true diagData 15 33 991 _ (by omega) hz2]
  rw [show (33 : ℕ) + 15 = 48 from rfl, show (991 : ℕ) - 15 = 975 + 1 from rfl]
  rw [pbmLoop_step true diagData 48 975 (1 <<< 4) _ hb3]
  rw [pbmBitLoop_pow true 4 48 (by norm_num) 8 0 _ (by omega) (by omega) (by omega)]
  norm_num
  rw [pbmLoop_skip true diagData 15 49 975 _ (by omega) hz3]
  rw [show (49 : ℕ) + 15 = 64 from rfl, show (975 : ℕ) - 15 = 959 + 1 from rfl]
  rw [pbmLoop_step true diagData 64 959 (1 <<< 3) _ hb4]
  rw [pbmBitLoop_pow true 3 64 (by norm_num) 8 0 _ (by omega) (by omega) (by omega)]
  norm_num
  rw [pbmLoop_skip true diagData 15 65 959 _ (by omega) hz4]
  rw [show (65 : ℕ) + 15 = 80 from rfl, show (959 : ℕ) - 15 = 943 + 1 from rfl]
  rw [pbmLoop_step true diagData 80 943 (1 <<< 2) _ hb5]
  rw [pbmBitLoop_pow true 2 80 (by norm_num) 8 0 _ (by omega) (by omega) (by omega)]
  norm_num
  rw [pbmLoop_skip true diagData 15 81 943 _ (by omega) hz5]
  rw [show (81 : ℕ) + 15 = 96 from rfl, show (943 : ℕ) - 15 = 927 + 1 from rfl]
  rw [pbmLoop_step true diagData 96 927 (1 <<< 1) _ hb6]
  rw [pbmBitLoop_pow true 1 96 (by norm_num) 8 0 _ (by omega) (by omega) (by omega)]
  norm_num
  rw [pbmLoop_skip true diagData 15 97 927 _ (by omega) hz6]
  rw [show (97 : ℕ) + 15 = 112 from rfl, show (927 : ℕ) - 15 = 911 + 1 from rfl]
  rw [pbmLoop_step true diagData 112 911 (1 <<< 0) _ hb7]
  rw [pbmBitLoop_pow true 0 112 (by norm_num) 8 0 _ (by omega) (by omega) (by omega)]
  norm_num
  rw [pbmLoop_skip true diagData 911 113 911 _ (by omega) hz7]
  rw [show (911 : ℕ) - 911 = 0 from rfl]
  exact pbmLoop_done _ _ _ _

/-! ### Sample-list and rendering lemmas for the plot -/

theorem pushSample_data (g : Graph2D) (v : ℚ) (h : (g.data.length : ℤ) ≤ g.width) :
    (pushSample g v).data = (v :: g.data).take g.width.toNat := by
  unfold pushSample
  dsimp only
  by_cases hc : ((v :: g.data).length : ℤ) > g.width
  · rw [if_pos hc]
    have hlen : g.data.length = g.width.toNat := by
      simp at hc
      omega
    rw [List.dropLast_eq_take]
    simp [hlen]
  · rw [if_neg hc]
    rw [List.take_of_length_le (by simp at hc ⊢; omega)]

theorem pushSample_width (g : Graph2D) (v : ℚ) :
    (pushSample g v).width = g.width := rfl

theorem pushSample_len (g : Graph2D) (v : ℚ) (h : (g.data.length : ℤ) ≤ g.width) :
    (((pushSample g v).data.length : ℤ)) ≤ g.width := by
  rw [pushSample_data g v h]
  simp
  omega

theorem foldl_pushSample_data (vs : List ℚ) :
    ∀ (g : Graph2D), (g.data.length : ℤ) ≤ g.width →
      (vs.foldl pushSample g).data =
        (vs.reverse ++ g.data).take g.width.toNat ∧
      (vs.foldl pushSample g).width = g.width := by
  induction vs with
  | nil =>
    intro g h
    refine ⟨?_, rfl⟩
    rw [List.reverse_nil, List.nil_append]
    rw [List.take_of_length_le (by omega)]
    rfl
  | cons v vs ih =>
    intro g h
    rw [List.foldl_cons]
    obtain ⟨h1, h2⟩ := ih (pushSample g v) (by rw [pushSample_width]; exact pushSample_len g v h)
    rw [pushSample_width] at h1 h2
    refine ⟨?_, h2⟩
    rw [h1, pushSample_data g v h]
    rw [List.reverse_cons, List.append_assoc]
    rw [List.take_append_eq_append_take, List.take_append_eq_append_take]
    congr 1
    rw [List.take_take]
    congr 1
    omega

theorem renderLoop_line (g : Graph2D) (hb : g.bars = false) :
    ∀ (d : List ℚ) (x : ℤ) (s : DState),
      renderLoop g d x s = applyPixels g.c (specLineCalls g x d) s
  | [], _, s => rfl
  | v :: rest, x, s => by
    rw [renderLoop, specLineCalls]
    rw [hb]
    simp only [Bool.false_eq_true, if_false]
    by_cases hc : g.origin_x ≤ x ∧ x < g.origin_x + g.width ∧
        g.origin_y - g.height < pyRound (g.m * v + g.offset) ∧
        pyRound (g.m * v + g.offset) ≤ g.origin_y
    · rw [if_pos hc, if_pos hc]
      rw [List.singleton_append, applyPixels]
      exact renderLoop_line g hb rest (x-1) _
    · rw [if_neg hc, if_neg hc]
      rw [List.nil_append]
      exact renderLoop_line g hb rest (x-1) s

/-! ### Characterisation of the filled-circle scan -/

theorem ite_true_or (P : Prop) [Decidable P] (b : Bool) :
    (if P then true else b) = (decide P || b) := by
  by_cases h : P <;> simp [h]

theorem or_decide_combine (p q r : Prop) [Decidable p] [Decidable q] [Decidable r]
    (h : p ∨ q ↔ r) : (decide p || decide q) = decide r := by
  have he : (decide p || decide q) = decide (p ∨ q) := by
    by_cases hp : p <;> by_cases hq : q <;> simp [hp, hq]
  rw [he, decide_eq_decide]
  exact h

theorem circInner_length (xc yc r : ℤ) (t : ℚ) (cc : Bool) (i : ℤ) :
    ∀ (n : ℕ) (j : ℤ) (s : DState),
      (circInner xc yc r t cc i n j s).buffer.length = s.buffer.length
  | 0, _, _ => rfl
  | n+1, j, s => by
    simp only [circInner]
    rw [circInner_length xc yc r t cc i n (j+1) _]
    split
    · split
      · rw [pixel_buffer_length]
      · rfl
    · split
      · rw [pixel_buffer_length]
      · rfl

theorem circInner_spec (xc yc r : ℤ) (t : ℚ) (cc : Bool) (ht : t ≠ 0) (i : ℤ)
    (hi0 : 0 ≤ i) (hi : i < 128) :
    ∀ (n : ℕ) (j0 : ℤ) (s : DState), s.buffer.length = 1024 → 0 ≤ j0 → j0 + n ≤ 64 →
    ∀ (X Y : ℕ), X < 128 → Y < 64 →
      surfGet (circInner xc yc r t cc i n j0 s) X Y =
        (decide ((X : ℤ) = i ∧ j0 ≤ (Y : ℤ) ∧ (Y : ℤ) < j0 + n ∧
          (i - xc)^2 + ((Y : ℤ) - yc)^2 < r^2) || surfGet s X Y)
  | 0, j0, s, hlen, hj0, hjn, X, Y, hX, hY => by
    rw [circInner]
    have hfalse : ¬((X : ℤ) = i ∧ j0 ≤ (Y : ℤ) ∧ (Y : ℤ) < j0 + (0:ℕ) ∧
        (i - xc)^2 + ((Y : ℤ) - yc)^2 < r^2) := by
      rintro ⟨-, h2, h3, -⟩
      omega
    rw [decide_eq_false hfalse, Bool.false_or]
  | n+1, j0, s, hlen, hj0, hjn, X, Y, hX, hY => by
    simp only [circInner]
    rw [if_pos ht]
    by_cases hd : (i - xc)^2 + (j0 - yc)^2 < r^2
    · rw [if_pos hd]
      rw [circInner_spec xc yc r t cc ht i hi0 hi n (j0+1) (pixel i j0 true s)
        (by rw [pixel_buffer_length]; exact hlen) (by omega) (by omega) X Y hX hY]
      rw [surfGet_pixel i j0 true s hlen hi0 hi (by omega) (by omega) X Y hX hY]
      rw [ite_true_or, ← Bool.or_assoc]
      rw [Bool.or_comm (decide ((X : ℤ) = i ∧ j0 + 1 ≤ (Y : ℤ) ∧ (Y : ℤ) < j0 + 1 + (n:ℕ) ∧
        (i - xc)^2 + ((Y : ℤ) - yc)^2 < r^2)) (decide ((X : ℤ) = i ∧ (Y : ℤ) = j0))]
      congr 1
      apply or_decide_combine
      constructor
      · rintro (⟨hB1, hB2⟩ | ⟨hA1, hA2, hA3, hA4⟩)
        · refine ⟨hB1, by omega, by omega, ?_⟩
          rw [hB2]
          exact hd
        · exact ⟨hA1, by omega, by omega, hA4⟩
      · rintro ⟨hC1, hC2, hC3, hC4⟩
        by_cases hYj : (Y : ℤ) = j0
        · exact Or.inl ⟨hC1, hYj⟩
        · exact Or.inr ⟨hC1, by omega, by omega, hC4⟩
    · rw [if_neg hd]
      rw [circInner_spec xc yc r t cc ht i hi0 hi n (j0+1) s hlen (by omega) (by omega)
        X Y hX hY]
      congr 1
      rw [decide_eq_decide]
      constructor
      · rintro ⟨h1, h2, h3, h4⟩
        exact ⟨h1, by omega, by omega, h4⟩
      · rintro ⟨h1, h2, h3, h4⟩
        have hYj : (Y : ℤ) ≠ j0 := by
          intro hc
          rw [hc] at h4
          exact hd h4
        exact ⟨h1, by omega, by omega, h4⟩

theorem circOuter_spec (xc yc r : ℤ) (t : ℚ) (cc : Bool) (ht : t ≠ 0)
    (hyc0 : 0 ≤ yc - r) (hyc : yc + r < 64) (hr : 0 ≤ r) :
    ∀ (n : ℕ) (i0 : ℤ) (s : DState), s.buffer.length = 1024 → 0 ≤ i0 → i0 + n ≤ 128 →
    ∀ (X Y : ℕ), X < 128 → Y < 64 →
      surfGet (circOuter xc yc r t cc n i0 s) X Y =
        (decide (i0 ≤ (X : ℤ) ∧ (X : ℤ) < i0 + n ∧ yc - r ≤ (Y : ℤ) ∧ (Y : ℤ) ≤ yc + r ∧
          ((X : ℤ) - xc)^2 + ((Y : ℤ) - yc)^2 < r^2) || surfGet s X Y)
  | 0, i0, s, hlen, hi0, hin, X, Y, hX, hY => by
    rw [circOuter]
    have hfalse : ¬(i0 ≤ (X : ℤ) ∧ (X : ℤ) < i0 + (0:ℕ) ∧ yc - r ≤ (Y : ℤ) ∧
        (Y : ℤ) ≤ yc + r ∧ ((X : ℤ) - xc)^2 + ((Y : ℤ) - yc)^2 < r^2) := by
      rintro ⟨h1, h2, -⟩
      omega
    rw [decide_eq_false hfalse, Bool.false_or]
  | n+1, i0, s, hlen, hi0, hin, X, Y, hX, hY => by
    simp only [circOuter]
    rw [circOuter_spec xc yc r t cc ht hyc0 hyc hr n (i0+1)
      (circInner xc yc r t cc i0 ((2 * r + 1).toNat) (yc - r) s)
      (by rw [circInner_length]; exact hlen) (by omega) (by omega) X Y hX hY]
    rw [circInner_spec xc yc r t cc ht i0 (by omega) (by omega) ((2 * r + 1).toNat)
      (yc - r) s hlen (by omega) (by omega) X Y hX hY]
    rw [← Bool.or_assoc]
    rw [Bool.or_comm (decide (i0 + 1 ≤ (X : ℤ) ∧ (X : ℤ) < i0 + 1 + (n:ℕ) ∧
      yc - r ≤ (Y : ℤ) ∧ (Y : ℤ) ≤ yc + r ∧
      ((X : ℤ) - xc)^2 + ((Y : ℤ) - yc)^2 < r^2))]
    congr 1
    apply or_decide_combine
    have htn : ((2 * r + 1).toNat : ℤ) = 2 * r + 1 := by omega
    constructor
    · rintro (⟨hB1, hB2, hB3, hB4⟩ | ⟨hA1, hA2, hA3, hA4, hA5⟩)
      · refine ⟨by omega, by omega, by omega, by omega, ?_⟩
        rw [hB1]
        exact hB4
      · exact ⟨by omega, by omega, hA3, hA4, hA5⟩
    · rintro ⟨hC1, hC2, hC3, hC4, hC5⟩
      by_cases hXi : (X : ℤ) = i0
      · refine Or.inl ⟨hXi, by omega, by omega, ?_⟩
        rw [← hXi]
        exact hC5
      · exact Or.inr ⟨by omega, by omega, hC3, hC4, hC5⟩

theorem circ_spec (xc yc r : ℤ) (t : ℚ) (cc : Bool) (ht : t ≠ 0)
    (hx0 : 0 ≤ xc - r) (hx1 : xc + r < 128) (hy0 : 0 ≤ yc - r) (hy1 : yc + r < 64)
    (hr : 0 ≤ r) (s : DState) (hlen : s.buffer.length = 1024)
    (X Y : ℕ) (hX : X < 128) (hY : Y < 64) :
    surfGet (circ xc yc r t cc s) X Y =
      if xc - r ≤ (X : ℤ) ∧ (X : ℤ) ≤ xc + r ∧ yc - r ≤ (Y : ℤ) ∧ (Y : ℤ) ≤ yc + r ∧
         ((X : ℤ) - xc)^2 + ((Y : ℤ) - yc)^2 < r^2 then true
      else surfGet s X Y := by
  unfold circ
  rw [circOuter_spec xc yc r t cc ht hy0 hy1 hr ((2 * r + 1).toNat) (xc - r) s hlen
    (by omega) (by omega) X Y hX hY]
  rw [ite_true_or]
  congr 1
  rw [decide_eq_decide]
  have htn : ((2 * r + 1).toNat : ℤ) = 2 * r + 1 := by omega
  constructor
  · rintro ⟨h1, h2, h3, h4, h5⟩
    exact ⟨h1, by omega, h3, h4, h5⟩
  · rintro ⟨h1, h2, h3, h4, h5⟩
    exact ⟨h1, by omega, h3, h4, h5⟩

theorem write_cmd_flag (n : ℤ) (h0 : 0 ≤ n) (h256 : n < 256) (s : DState)
    (ob : Bool) (rest : List Bool) (h : s.outcomes = ob :: rest) :
    (write_cmd (.int n) s).commsErr = !ob := by
  have hb : bytesOfList (.int n) = .ok [n.toNat] := by
    show (if 0 ≤ n ∧ n < 256 then (Except.ok [n.toNat] : Except PyErr (List ℕ))
      else .error .valueError) = .ok [n.toNat]
    rw [if_pos ⟨h0, h256⟩]
  unfold write_cmd
  rw [hb]
  dsimp only
  unfold takeOutcome
  rw [h]
  cases ob <;> rfl

theorem write_data_flag (bs : List ℕ) (s : DState)
    (ob : Bool) (rest : List Bool) (h : s.outcomes = ob :: rest) :
    (write_data bs s).commsErr = !ob := by
  unfold write_data takeOutcome
  rw [h]
  cases ob <;> rfl

/-! ### The claims -/

/-- C1: the claim states that flush() sends the four addressing commands and
then the whole width*page_count-byte buffer as one data block through
write_block, so that exactly 1024 data bytes go out per flush.  The code
instead iterates write_cmd over a tuple that contains the buffer itself:
bytes([buffer]) raises TypeError inside write_cmd, the bare except swallows
it and sets comms_err, and write_data is never invoked.  Evaluating show()
on a checkerboard-filled surface with an all-success bus: exactly the six
addressing command writes happen, zero bytes go through write_data
(the claim demands 1024), the buffer is untouched and comms_err ends True. -/
theorem C1_flush_never_uses_write_data :
    show' checkerState =
      { checkerState with
        trace := [⟨0x80, [0x21]⟩, ⟨0x80, [0]⟩, ⟨0x80, [127]⟩, ⟨0x80, [0x22]⟩,
          ⟨0x80, [0]⟩, ⟨0x80, [7]⟩],
        commsErr := true }
    ∧ dataBytesSent (show' checkerState).trace = 0
    ∧ (show' checkerState).buffer = checkerState.buffer := by
  have h := show'_spec checkerState rfl
  refine ⟨?_, ?_, show'_buffer _⟩
  · rw [h]
    rfl
  · rw [h]
    rfl

/-- C2 counterexample: the claim says a drawing operation mutates only the
in-memory PixelSurface and is purely local until flush; but a single
set_pixel call already performs three bus transmissions (the set_pos cursor
commands), and under a failing bus outcome it also flips the comms_err
flag. -/
theorem C2_counterexample :
    (pixel 0 0 true blankState).trace =
      [⟨0x80, [0xb0]⟩, ⟨0x80, [0]⟩, ⟨0x80, [0x10]⟩]
    ∧ blankState.trace = []
    ∧ (pixel 0 0 true { blankState with outcomes := [false, false, false] }).commsErr = true := by
  refine ⟨?_, rfl, ?_⟩ <;> decide

/-- C2 amended: every drawing operation (set_pixel, line/rect/circle/arc
primitives, text rendering, bitmap import, plot update) transmits at most
cursor-positioning command bytes (register 0x80) over the bus — never any
pixel data: no write_data (register 0x40) block is ever produced by a
drawing operation, and fill touches the bus not at all. -/
theorem C2_amended_drawing_sends_no_pixel_data
    (x y x2 y2 l w h r stAng enAng tI : ℤ) (t : ℚ) (c : Bool) (fc : ℕ)
    (trig : ℤ → ℤ → ℤ × ℤ) (font : Option (List ℕ)) (str : List Char)
    (data : List ℕ) (g : Graph2D) (v : ℚ) (s : DState) :
    cmdOnlyFrom s.trace (pixel x y c s).trace
    ∧ (fill fc s).trace = s.trace
    ∧ cmdOnlyFrom s.trace (line x y x2 y2 c s).trace
    ∧ cmdOnlyFrom s.trace (hline x y l c s).trace
    ∧ cmdOnlyFrom s.trace (vline x y h c s).trace
    ∧ cmdOnlyFrom s.trace (rect x y w h c s).trace
    ∧ cmdOnlyFrom s.trace (fill_rect x y w h c s).trace
    ∧ cmdOnlyFrom s.trace (circ x y r t c s).trace
    ∧ cmdOnlyFrom s.trace (arc trig r stAng enAng tI c s).trace
    ∧ cmdOnlyFrom s.trace (traceOf (text font str x y c s) s.trace)
    ∧ cmdOnlyFrom s.trace (traceOf (load_pbm_data c data s) s.trace)
    ∧ cmdOnlyFrom s.trace (update g v s).1.trace :=
  ⟨pixel_cmdOnly x y c s, fill_trace fc s, line_cmdOnly x y x2 y2 c s,
   hline_cmdOnly x y l c s, vline_cmdOnly x y h c s, rect_cmdOnly x y w h c s,
   fill_rect_cmdOnly x y w h c s, circ_cmdOnly x y r t c s,
   arc_cmdOnly trig r stAng enAng tI c s, text_cmdOnly font str x y c s,
   load_pbm_cmdOnly c data s, update_cmdOnly g v s⟩

/-- C3: the claim states that with the font resource missing the glyph
table stays empty and any subsequent text draw on non-empty text is a
silent no-op that does not raise.  In the code get_char_cols does catch the
missing file and leaves char_cols empty, but text() then evaluates
self.char_cols[char] on the empty dictionary, which raises KeyError for the
very first character: the call crashes instead of degrading. -/
theorem C3_missing_font_text_raises :
    get_char_cols none blankState.char_cols = []
    ∧ text none ['A'] 0 0 true blankState = .error .keyError := by
  refine ⟨rfl, ?_⟩
  rfl

/-- C4 counterexample: the claim says a point of the bounding box is
painted with the caller-supplied colour; but the filled branch of circ
paints with the constant 1, so drawing a filled circle with colour off
(c = 0) still sets the centre pixel of a blank surface. -/
theorem C4_counterexample :
    surfGet (circ 3 3 1 1 false blankState) 3 3 = true
    ∧ surfGet blankState 3 3 = false := by
  refine ⟨?_, rfl⟩
  decide

/-- C4 amended: for draw_circle with filled = true (t = 1), a point (i, j)
of the bounding box [cx-r, cx+r] x [cy-r, cy+r] is painted — always with
the on-state 1, regardless of the colour argument — iff its squared
distance to the centre is < r²; every other pixel of the surface keeps its
value (stated for a box inside the 128x64 surface, where no wrap-around
aliasing occurs). -/
theorem C4_amended_filled_circle (xc yc r : ℤ) (cc : Bool) (s : DState)
    (hx0 : 0 ≤ xc - r) (hx1 : xc + r < 128) (hy0 : 0 ≤ yc - r) (hy1 : yc + r < 64)
    (hr : 0 ≤ r) (hlen : s.buffer.length = 1024) (X Y : ℕ) (hX : X < 128) (hY : Y < 64) :
    surfGet (circ xc yc r 1 cc s) X Y =
      if xc - r ≤ (X : ℤ) ∧ (X : ℤ) ≤ xc + r ∧ yc - r ≤ (Y : ℤ) ∧ (Y : ℤ) ≤ yc + r ∧
         ((X : ℤ) - xc)^2 + ((Y : ℤ) - yc)^2 < r^2 then true
      else surfGet s X Y :=
  circ_spec xc yc r 1 cc (by norm_num) hx0 hx1 hy0 hy1 hr s hlen X Y hX hY

/-- C4 witness: the amended characterisation applied to a filled circle of
radius 2 at (5,5) drawn with colour off on a blank surface, observed at
(5,4): inside the disc, hence painted. -/
theorem C4_amended_filled_circle_witness :
    (0:ℤ) ≤ 5 - 2 ∧ (5:ℤ) + 2 < 128 ∧ (5:ℤ) + 2 < 64 ∧ (0:ℤ) ≤ 2
    ∧ blankState.buffer.length = 1024
    ∧ surfGet (circ 5 5 2 1 false blankState) 5 4 =
        (if (5:ℤ) - 2 ≤ ((5:ℕ) : ℤ) ∧ ((5:ℕ) : ℤ) ≤ 5 + 2 ∧ (5:ℤ) - 2 ≤ ((4:ℕ) : ℤ) ∧
            ((4:ℕ) : ℤ) ≤ 5 + 2 ∧ (((5:ℕ) : ℤ) - 5)^2 + (((4:ℕ) : ℤ) - 5)^2 < 2^2 then true
         else surfGet blankState 5 4) :=
  ⟨by norm_num, by norm_num, by norm_num, by norm_num, by decide,
   C4_amended_filled_circle 5 5 2 false blankState (by norm_num) (by norm_num)
     (by norm_num) (by norm_num) (by norm_num) (by decide) 5 4 (by norm_num) (by norm_num)⟩

/-- C5 counterexample: the claim reads the bit index b with 0 = most
significant.  Take a full-frame data section whose only set bit is the most
significant bit of byte 0 (claim: b = 0, i = 0, so x = (8-0+0) mod 128 = 8,
y = 0).  The code tests bits least-significant-first (this bit is its
bit = 7) and paints (1, 0), not (8, 0). -/
theorem C5_counterexample :
    (load_pbm_data true pbmSingle blankState).map
        (fun s0 => (surfGet s0 8 0, surfGet s0 1 0)) = .ok (false, true) := by
  have h := load_single 0 7 (by norm_num) (by norm_num)
  have hdata : List.replicate 0 0 ++ (1 <<< 7) :: List.replicate (1023 - 0) 0 =
      pbmSingle := rfl
  rw [hdata] at h
  rw [h]
  decide

/-- C5 amended: load_pbm maps data byte index i and bit index b counted
from the LEAST significant end (0 = LSB, the loop tests data[i] & (1 << b))
to x = ((8-b) + i*8) mod width, y = (i*8) div width: on a blank surface a
single set bit produces exactly that one pixel.  Consequently an 8x8
pattern packed MSB-first into a full-frame bitmap is NOT reproduced at its
own columns: it comes out shifted one column to the right — the 8x8
identity diagonal (pixels (k,k)) loads as pixels (k+1, k), buffer byte
k+1 = 2^k. -/
theorem C5_amended_lsb_mapping (i b : ℕ) (hi : i < 1024) (hb : b < 8) :
    (load_pbm_data true (List.replicate i 0 ++ (1 <<< b) :: List.replicate (1023 - i) 0)
        blankState).map DState.buffer =
      .ok ((List.replicate 1024 0).set
        ((((8 - b) + i * 8) % 128) + (i * 8 / 128 / 8) * 128)
        (1 <<< (i * 8 / 128 % 8)))
    ∧ (load_pbm_data true diagData blankState).map DState.buffer = .ok diagShifted := by
  constructor
  · rw [load_single i b hi hb]
    show Except.ok _ = _
    congr 1
    rw [pixel_buffer_spec]
    have hxlt : ((8 - b) + i * 8) % 128 < 128 := Nat.mod_lt _ (by norm_num)
    have hylt : i * 8 / 128 < 64 := by omega
    have hX : ((((((8 - b) + i * 8) % 128 : ℕ)) : ℤ) % 128).toNat =
        ((8 - b) + i * 8) % 128 := by omega
    have hY : ((((i * 8 / 128 : ℕ)) : ℤ) % 64).toNat = i * 8 / 128 := by omega
    rw [hX, hY, if_pos rfl]
    have hbb : blankState.buffer = List.replicate 1024 0 := rfl
    rw [hbb, getD_replicate_zero, Nat.zero_or]
  · rw [load_diag]
    show Except.ok _ = _
    congr 1

/-- C6 counterexample: the claim says a sample is drawn iff its mapped row
lies in the CLOSED interval [origin_y - height, origin_y].  Take a plot
with origin (0,10), width 5, height 10, range 0..9 (slope -1, offset 10)
and push the value 10: the mapped row is round(-10 + 10) = 0 =
origin_y - height, inside the claimed closed interval, yet the code (whose
test is origin_y - height < y) draws nothing: the state is completely
unchanged. -/
theorem C6_counterexample :
    (update (mkGraph2D 0 10 5 10 0 9 true false) 10 blankState).1 = blankState
    ∧ pyRound ((mkGraph2D 0 10 5 10 0 9 true false).m * 10 +
        (mkGraph2D 0 10 5 10 0 9 true false).offset) =
      (mkGraph2D 0 10 5 10 0 9 true false).origin_y -
        (mkGraph2D 0 10 5 10 0 9 true false).height := by
  have hm : (mkGraph2D 0 10 5 10 0 9 true false).m = -1 := by
    norm_num [mkGraph2D]
  have hoff : (mkGraph2D 0 10 5 10 0 9 true false).offset = 10 := by
    norm_num [mkGraph2D]
  have hy : pyRound ((mkGraph2D 0 10 5 10 0 9 true false).m * 10 +
      (mkGraph2D 0 10 5 10 0 9 true false).offset) = 0 := by
    rw [hm, hoff]
    norm_num [pyRound]
  constructor
  · show renderLoop (pushSample (mkGraph2D 0 10 5 10 0 9 true false) 10)
      (pushSample (mkGraph2D 0 10 5 10 0 9 true false) 10).data
      ((pushSample (mkGraph2D 0 10 5 10 0 9 true false) 10).origin_x +
        (pushSample (mkGraph2D 0 10 5 10 0 9 true false) 10).width - 1) blankState =
      blankState
    have hd : (pushSample (mkGraph2D 0 10 5 10 0 9 true false) 10).data = [10] := rfl
    rw [hd]
    simp only [renderLoop]
    have hb : (pushSample (mkGraph2D 0 10 5 10 0 9 true false) 10).bars = false := rfl
    rw [hb]
    simp only [Bool.false_eq_true, if_false]
    have hy1 : pyRound ((pushSample (mkGraph2D 0 10 5 10 0 9 true false) 10).m * 10 +
        (pushSample (mkGraph2D 0 10 5 10 0 9 true false) 10).offset) = 0 := hy
    rw [if_neg ?hc]
    case hc =>
      rw [hy1]
      rintro ⟨-, -, h3, -⟩
      have hoy : (pushSample (mkGraph2D 0 10 5 10 0 9 true false) 10).origin_y = 10 := rfl
      have hh : (pushSample (mkGraph2D 0 10 5 10 0 9 true false) 10).height = 10 := rfl
      rw [hoy, hh] at h3
      omega
  · rw [hy]
    rfl

/-- C6 amended: in line mode, one update call pushes the sample and then
paints exactly one pixel per retained sample, newest at column
origin_x + width - 1 and one column left per older sample, at row
pixel_y = round(m*value + offset) with m = (1-height)/(max-min) and
offset = origin_y - m*min (the mkGraph2D conjuncts); the pixel is drawn
iff pixel_y lies in the HALF-OPEN interval (origin_y - height, origin_y]
(and its column in the plot window); a row on or outside the open lower
bound is clipped — nothing is drawn for that column. -/
theorem C6_amended_line_plot (g : Graph2D) (v : ℚ) (s : DState) (hb : g.bars = false)
    (ox oy w h : ℤ) (mn mx : ℚ) (cc bs : Bool) :
    (update g v s).1 =
      applyPixels g.c (specLineCalls (pushSample g v)
        ((pushSample g v).origin_x + (pushSample g v).width - 1) (pushSample g v).data) s
    ∧ (update g v s).2 = pushSample g v
    ∧ (mkGraph2D ox oy w h mn mx cc bs).m = (1 - (h : ℚ)) / (mx - mn)
    ∧ (mkGraph2D ox oy w h mn mx cc bs).offset =
        (oy : ℚ) - ((1 - (h : ℚ)) / (mx - mn)) * mn := by
  refine ⟨?_, rfl, rfl, rfl⟩
  show renderLoop (pushSample g v) (pushSample g v).data
      ((pushSample g v).origin_x + (pushSample g v).width - 1) s = _
  have hb' : (pushSample g v).bars = false := hb
  rw [renderLoop_line (pushSample g v) hb']
  rfl

/-- C6 witness: the amended statement applied to a fresh default-size plot
receiving the sample 3 on a blank surface. -/
theorem C6_amended_line_plot_witness :
    (mkGraph2D 0 63 128 64 0 255 true false).bars = false
    ∧ ((update (mkGraph2D 0 63 128 64 0 255 true false) 3 blankState).1 =
        applyPixels (mkGraph2D 0 63 128 64 0 255 true false).c
          (specLineCalls (pushSample (mkGraph2D 0 63 128 64 0 255 true false) 3)
            ((pushSample (mkGraph2D 0 63 128 64 0 255 true false) 3).origin_x +
              (pushSample (mkGraph2D 0 63 128 64 0 255 true false) 3).width - 1)
            (pushSample (mkGraph2D 0 63 128 64 0 255 true false) 3).data)
          blankState) :=
  ⟨rfl, (C6_amended_line_plot (mkGraph2D 0 63 128 64 0 255 true false) 3 blankState rfl
    0 63 128 64 0 255 true false).1⟩

/-- C7: set_pixel wraps x by x & 127 = x mod 128 and y by y & 63 = y mod 64
(wrap-around, not clamping), computes (page, offset) = divmod(y, 8), and
sets (on) or clears (off) bit offset of the buffer byte at flat index
x + page*128, leaving the other bits of that byte alone; in particular
set_pixel(width, 0, on) leaves the buffer exactly as set_pixel(0, 0, on)
does. -/
theorem C7_set_pixel_wrap (x y : ℤ) (c : Bool) (s : DState) :
    (pixel x y c s).buffer =
      s.buffer.set ((x % 128).toNat + ((y % 64).toNat / 8) * 128)
        (if c then
           s.buffer.getD ((x % 128).toNat + ((y % 64).toNat / 8) * 128) 0 |||
             (1 <<< ((y % 64).toNat % 8))
         else
           s.buffer.getD ((x % 128).toNat + ((y % 64).toNat / 8) * 128) 0 -
             (s.buffer.getD ((x % 128).toNat + ((y % 64).toNat / 8) * 128) 0 &&&
               (1 <<< ((y % 64).toNat % 8))))
    ∧ ((if c then
           s.buffer.getD ((x % 128).toNat + ((y % 64).toNat / 8) * 128) 0 |||
             (1 <<< ((y % 64).toNat % 8))
         else
           s.buffer.getD ((x % 128).toNat + ((y % 64).toNat / 8) * 128) 0 -
             (s.buffer.getD ((x % 128).toNat + ((y % 64).toNat / 8) * 128) 0 &&&
               (1 <<< ((y % 64).toNat % 8)))).testBit ((y % 64).toNat % 8) = c)
    ∧ (∀ k : ℕ, k ≠ (y % 64).toNat % 8 →
        (if c then
           s.buffer.getD ((x % 128).toNat + ((y % 64).toNat / 8) * 128) 0 |||
             (1 <<< ((y % 64).toNat % 8))
         else
           s.buffer.getD ((x % 128).toNat + ((y % 64).toNat / 8) * 128) 0 -
             (s.buffer.getD ((x % 128).toNat + ((y % 64).toNat / 8) * 128) 0 &&&
               (1 <<< ((y % 64).toNat % 8)))).testBit k =
        (s.buffer.getD ((x % 128).toNat + ((y % 64).toNat / 8) * 128) 0).testBit k)
    ∧ (pixel 128 0 true s).buffer = (pixel 0 0 true s).buffer := by
  refine ⟨pixel_buffer_spec x y c s, ?_, ?_, rfl⟩
  · cases c
    · rw [if_neg Bool.false_ne_true, testBit_clearByte]
      simp
    · rw [if_pos rfl, testBit_setByte]
      simp
  · intro k hk
    have hoff : ¬((y % 64).toNat % 8 = k) := fun hc => hk hc.symm
    cases c
    · rw [if_neg Bool.false_ne_true, testBit_clearByte]
      simp [hoff]
    · rw [if_pos rfl, testBit_setByte]
      simp [hoff]

/-- C8: every bus-facing operation catches transport failure and never
raises (all the operations below are total functions of the state); the
comms_err flag records the outcome of the most recent transaction — set by
a failed write, cleared again by the next successful one — and a bus
failure during flush (or anywhere else) never touches the PixelSurface
buffer: show and the other controller commands leave the buffer unchanged
under every outcome oracle. -/
theorem C8_bus_error_handling (s : DState) (n : ℤ) (h0 : 0 ≤ n) (h256 : n < 256)
    (bs : List ℕ) :
    (show' s).buffer = s.buffer
    ∧ (write_cmd (.int n) { s with outcomes := false :: s.outcomes }).commsErr = true
    ∧ (write_cmd (.int n) { s with outcomes := true :: s.outcomes }).commsErr = false
    ∧ (write_data bs { s with outcomes := false :: s.outcomes }).commsErr = true
    ∧ (write_data bs { s with outcomes := true :: s.outcomes }).commsErr = false
    ∧ (init_display s).buffer = s.buffer
    ∧ (poweron s).buffer = s.buffer
    ∧ (poweroff s).buffer = s.buffer
    ∧ (set_contrast n s).buffer = s.buffer
    ∧ (invert n s).buffer = s.buffer
    ∧ (rotate n s).buffer = s.buffer :=
  ⟨show'_buffer s,
   write_cmd_flag n h0 h256 _ false s.outcomes rfl,
   write_cmd_flag n h0 h256 _ true s.outcomes rfl,
   write_data_flag bs _ false s.outcomes rfl,
   write_data_flag bs _ true s.outcomes rfl,
   init_display_buffer s, poweron_buffer s, poweroff_buffer s,
   set_contrast_buffer n s, invert_buffer n s, rotate_buffer n s⟩

/-- C8 witness: the error-handling facts at a blank controller state and
the contrast command byte 0x7F. -/
theorem C8_bus_error_handling_witness :
    (0:ℤ) ≤ 0x7F ∧ (0x7F:ℤ) < 256
    ∧ (show' blankState).buffer = blankState.buffer
    ∧ (write_cmd (.int 0x7F) { blankState with outcomes := false :: blankState.outcomes }).commsErr = true
    ∧ (write_cmd (.int 0x7F) { blankState with outcomes := true :: blankState.outcomes }).commsErr = false :=
  ⟨by norm_num, by norm_num,
   (C8_bus_error_handling blankState 0x7F (by norm_num) (by norm_num) [1]).1,
   (C8_bus_error_handling blankState 0x7F (by norm_num) (by norm_num) [1]).2.1,
   (C8_bus_error_handling blankState 0x7F (by norm_num) (by norm_num) [1]).2.2.1⟩

/-- C9: starting from a fresh plot, any sequence of pushed samples leaves
at most width samples, inserted at the front (newest first): the retained
list is exactly the most recent width values, the oldest having been
evicted from the tail first (FIFO by age). -/
theorem C9_sample_ring (g : Graph2D) (h0 : g.data = []) (hw : 0 ≤ g.width)
    (vs : List ℚ) :
    (((vs.foldl pushSample g).data.length : ℤ)) ≤ g.width
    ∧ (vs.foldl pushSample g).data = vs.reverse.take g.width.toNat := by
  obtain ⟨hd, hwid⟩ := foldl_pushSample_data vs g (by rw [h0]; simp; omega)
  rw [h0, List.append_nil] at hd
  refine ⟨?_, hd⟩
  rw [hd]
  simp
  omega

/-- C9 witness: a plot of width 5 receiving 7 pushes retains exactly the 5
most recent values, newest first. -/
theorem C9_sample_ring_witness :
    (mkGraph2D 0 63 5 64 0 255 true false).data = []
    ∧ (0:ℤ) ≤ (mkGraph2D 0 63 5 64 0 255 true false).width
    ∧ (([1, 2, 3, 4, 5, 6, 7] : List ℚ).foldl pushSample
        (mkGraph2D 0 63 5 64 0 255 true false)).data = [7, 6, 5, 4, 3] := by
  refine ⟨rfl, by norm_num [mkGraph2D], ?_⟩
  have h := (C9_sample_ring (mkGraph2D 0 63 5 64 0 255 true false) rfl
    (by norm_num [mkGraph2D]) [1, 2, 3, 4, 5, 6, 7]).2
  rw [h]
  rfl

/-- C10: one set_pixel call changes at most the single buffer byte at flat
index (x mod width) + ((y mod height) div 8) * width; every other byte is
unchanged and the buffer keeps its width*page_count = 1024 length. -/
theorem C10_set_pixel_frame (x y : ℤ) (c : Bool) (s : DState)
    (hlen : s.buffer.length = 1024) :
    (pixel x y c s).buffer.length = 1024
    ∧ ∀ j : ℕ, j ≠ (x % 128).toNat + ((y % 64).toNat / 8) * 128 →
        (pixel x y c s).buffer.getD j 0 = s.buffer.getD j 0 := by
  constructor
  · rw [pixel_buffer_length]
    exact hlen
  · intro j hj
    rw [pixel_buffer_spec]
    exact getD_set_ne _ _ _ _ (fun hc => hj hc.symm)

/-- C10 witness: painting (0, 0) on the fresh surface keeps the length at
1024 and leaves byte 5 untouched. -/
theorem C10_set_pixel_frame_witness :
    blankState.buffer.length = 1024
    ∧ (pixel 0 0 true blankState).buffer.length = 1024
    ∧ (pixel 0 0 true blankState).buffer.getD 5 0 = blankState.buffer.getD 5 0 :=
  ⟨by decide, (C10_set_pixel_frame 0 0 true blankState (by decide)).1,
   (C10_set_pixel_frame 0 0 true blankState (by decide)).2 5 (by decide)⟩

/-- C5 witness: the amended mapping at byte index 17, bit 2: the single set
bit paints pixel ((8-2 + 136) mod 128, 1) = (14, 1), buffer byte
14 + 128 = 142... i.e. flat index (6 + 136) mod 128 + (136/128/8)*128 with
value 2^(136/128 mod 8). -/
theorem C5_amended_lsb_mapping_witness :
    (17:ℕ) < 1024 ∧ (2:ℕ) < 8
    ∧ (load_pbm_data true
          (List.replicate 17 0 ++ (1 <<< 2) :: List.replicate (1023 - 17) 0)
          blankState).map DState.buffer =
        .ok ((List.replicate 1024 0).set
          ((((8 - 2) + 17 * 8) % 128) + (17 * 8 / 128 / 8) * 128)
          (1 <<< (17 * 8 / 128 % 8))) :=
  ⟨by norm_num, by norm_num,
   (C5_amended_lsb_mapping 17 2 (by norm_num) (by norm_num)).1⟩
